import Mathlib

/-!
Verification development for the poker-friends-server repository.

The definitions below are a shallow embedding of `src/game/HandEvaluator.ts`
and `src/game/PokerEngine.ts` (the fixed-big-blind engine revision, which the
spec documents as current).  JavaScript numbers are modelled as `Int`
(all chip arithmetic in the source is integral); numeric inputs coming from
clients, which the source passes through `Math.floor`, are modelled as `ℚ`
(every IEEE double is a rational, and `Math.floor` agrees with the rational
floor).  Card suits are encoded 0=♣, 1=♦, 2=♥, 3=♠.
-/

namespace PokerSpec

/-- A playing card: rank 2..14 (14 = Ace), suit encoded 0..3. -/
structure Card where
  rank : Nat
  suit : Nat
deriving DecidableEq

/-- Result of `rank7`: hand category 0..8 and the ordered tiebreak list. -/
structure RankResult where
  category : Nat
  tiebreak : List Nat
deriving DecidableEq

/-! ### List helpers

`dedupFirst` models `Array.from(new Set(xs))` (keeps first occurrences in
order); `sortDesc`/`sortAsc` model `xs.sort((a,b)=>b-a)` / `((a,b)=>a-b)` on
numbers (a total order, so the JS sort result is uniquely determined). -/

def dedupFirstAux {α : Type} [DecidableEq α] (seen : List α) : List α → List α
  | [] => []
  | a :: as =>
    if a ∈ seen then dedupFirstAux seen as
    else a :: dedupFirstAux (seen ++ [a]) as

def dedupFirst {α : Type} [DecidableEq α] (l : List α) : List α :=
  dedupFirstAux [] l

def sortDesc (l : List Nat) : List Nat := l.insertionSort (· ≥ ·)

def sortAsc (l : List Nat) : List Nat := l.insertionSort (· ≤ ·)

/-- Number of cards of suit `st` (size of the `suits` map entry). -/
def suitCount (cards : List Card) (st : Nat) : Nat :=
  (cards.filter (fun c => c.suit = st)).length

/-- Multiplicity of rank `r` (the `countsByRank` map as a function). -/
def rankCount (cards : List Card) (r : Nat) : Nat :=
  (cards.map Card.rank).count r

/-- `ranksDesc` of the source: distinct ranks, sorted descending. -/
def ranksDescOf (cards : List Card) : List Nat :=
  sortDesc (dedupFirst (cards.map Card.rank))

/-- The flush suit: the source iterates the suit map (first-occurrence key
order) and keeps the last suit with at least five cards. -/
def flushSuit (cards : List Card) : Option Nat :=
  ((dedupFirst (cards.map Card.suit)).filter (fun st => 5 ≤ suitCount cards st)).getLast?

/-- Ranks of the flush-suit cards, sorted descending. -/
def flushRanks (cards : List Card) (st : Nat) : List Nat :=
  sortDesc ((cards.filter (fun c => c.suit = st)).map Card.rank)

/-- The flush suit's rank list, when a flush suit exists. -/
def flushInfo (cards : List Card) : Option (List Nat) :=
  (flushSuit cards).map (flushRanks cards)

/-! ### Straight detection (`isStraight` of the source) -/

/-- The scan loop of `isStraight`: walks the descending rank list, tracking
the current run length and the best straight high card found so far. -/
def straightLoop (u : List Nat) : Nat → Nat → Nat → Nat → Nat
  | 0, _, _, bestHigh => bestHigh
  | k + 1, i, run, bestHigh =>
    if u.getD i 0 = u.getD (i+1) 0 + 1 then
      let run' := run + 1
      let best' := if 5 ≤ run' then max bestHigh (u.getD (i-3) 0) else bestHigh
      straightLoop u k (i+1) run' best'
    else straightLoop u k (i+1) 1 bestHigh

/-- `isStraight`: dedup, sort descending, append Ace-as-1 when an Ace is
present, then scan for runs of five. Returns the best high card, or `none`. -/
def isStraight (ranks : List Nat) : Option Nat :=
  let u0 := sortDesc (dedupFirst ranks)
  let u := if 14 ∈ u0 then u0 ++ [1] else u0
  let b := straightLoop u (u.length - 1) 0 1 0
  if b = 0 then none else some b

/-! ### Rank groups -/

/-- Order used to sort the `(rank, count)` groups: count descending, then
rank descending (the JS comparator is total, so sort order is unique). -/
def groupLE (a b : Nat × Nat) : Prop := b.2 < a.2 ∨ (a.2 = b.2 ∧ b.1 ≤ a.1)

instance : DecidableRel groupLE := fun a b =>
  inferInstanceAs (Decidable (_ ∨ _))

/-- The sorted `(rank, count)` groups of the source. -/
def groupsOf (cards : List Card) : List (Nat × Nat) :=
  List.insertionSort groupLE
    ((dedupFirst (cards.map Card.rank)).map (fun r => (r, rankCount cards r)))

/-! ### `rank7` -/

/-- The branch cascade of `rank7`, expressed over the derived data
(flush-suit ranks, distinct ranks descending, sorted groups).  Indexing that
cannot fail on a genuine 7-card input is modelled with a `0` default. -/
def rank7Core (flush : Option (List Nat)) (rks : List Nat)
    (groups : List (Nat × Nat)) : RankResult :=
  let sf : Option Nat := match flush with
    | some fr => isStraight fr
    | none => none
  match sf with
  | some h => ⟨8, [h]⟩
  | none =>
    let quad : Option Nat := match groups.head? with
      | some g => if g.2 = 4 then some g.1 else none
      | none => none
    match quad with
    | some q =>
      let kickers := rks.filter (· ≠ q)
      ⟨7, [q, kickers.getD 0 0]⟩
    | none =>
      let threes := sortDesc ((groups.filter (fun g => g.2 = 3)).map Prod.fst)
      let pairs := sortDesc ((groups.filter (fun g => g.2 = 2)).map Prod.fst)
      if 2 ≤ threes.length ∨ (1 ≤ threes.length ∧ 1 ≤ pairs.length) then
        let top3 := threes.getD 0 0
        let top2 := if 2 ≤ threes.length then threes.getD 1 0 else pairs.getD 0 0
        ⟨6, [top3, top2]⟩
      else match flush with
      | some fr => ⟨5, fr.take 5⟩
      | none =>
        match isStraight rks with
        | some h => ⟨4, [h]⟩
        | none =>
          if 1 ≤ threes.length then
            let r3 := threes.getD 0 0
            ⟨3, r3 :: (rks.filter (· ≠ r3)).take 2⟩
          else if 2 ≤ pairs.length then
            let p1 := pairs.getD 0 0
            let p2 := pairs.getD 1 0
            let kick := (rks.filter (fun r => r ≠ p1 ∧ r ≠ p2)).getD 0 0
            ⟨2, [max p1 p2, min p1 p2, kick]⟩
          else if pairs.length = 1 then
            let p := pairs.getD 0 0
            ⟨1, p :: (rks.filter (· ≠ p)).take 3⟩
          else
            ⟨0, rks.take 5⟩

/-- `HandEvaluator.rank7`. -/
def rank7 (cards : List Card) : RankResult :=
  rank7Core (flushInfo cards) (ranksDescOf cards) (groupsOf cards)

/-! ### Lexicographic tiebreak comparison (inlined in `resolveShowdown`) -/

/-- One step of the tiebreak comparison loop: first index where the two
lists (padded with 0) differ decides, as a signed difference. -/
def tieCmpFrom (a b : List Nat) : Nat → Nat → Int
  | 0, _ => 0
  | k + 1, i =>
    let x := a.getD i 0
    let y := b.getD i 0
    if x = y then tieCmpFrom a b k (i+1) else (x : Int) - (y : Int)

/-- Tiebreak comparison of `resolveShowdown`: positive means `a` wins. -/
def tieCmp (a b : List Nat) : Int := tieCmpFrom a b (max a.length b.length) 0

/-! ## PokerEngine data model -/

inductive Stage where
  | waiting | preflop | flop | turn | river | showdown
deriving DecidableEq

/-- The four betting stages (the source tests membership in
`['preflop','flop','turn','river']`). -/
def isBettingStage : Stage → Bool
  | .preflop | .flop | .turn | .river => true
  | _ => false

structure Player where
  id : String
  name : String
  stack : Int
  seat : Nat
  hole : Option (List Card)
  inHand : Bool
  hasActedThisRound : Bool
  isAllIn : Bool
  isOwner : Bool
deriving DecidableEq

structure SidePot where
  amount : Int
  eligibleSeats : List Nat
deriving DecidableEq

structure WinnerInfo where
  seat : Nat
  name : String
  amount : Int
  category : Option Nat
  categoryName : String
deriving DecidableEq

def CATEGORY_NAMES : List String :=
  ["High Card", "One Pair", "Two Pair", "Three of a Kind", "Straight",
   "Flush", "Full House", "Four of a Kind", "Straight Flush"]

def catName : Option Nat → String
  | none => "Uncontested"
  | some c => CATEGORY_NAMES.getD c ("Cat " ++ toString c)

/-- The engine's human-readable `message` field, abstracted from its English
text to its content. -/
inductive Msg where
  | empty
  | needPlayers
  | newHand
  | nextStreet
  | winsUncontested (name : String)
  | winnerOne (name : String) (amount : Int)
  | winnersMany (names : List String)
deriving DecidableEq

/-- Action-log entries, abstracted from their formatted text (the source also
stamps each entry with `Date.now()`, which has no shallow embedding; the log
is observational only and never read by game logic). -/
inductive LogEvent where
  | joined (name : String) (seat : Nat) (stack : ℚ)
  | left (name : String)
  | posts (name : String) (paid : Int)
  | handStarted (dealer sbName bbName : String) (sb bb : Int)
  | flopDealt (cs : List Card)
  | turnDealt (cs : List Card)
  | riverDealt (cs : List Card)
  | winUncontested (name : String) (amount : Int)
  | showdownResult (entries : List (String × Int))
  | folded (name : String)
  | checked (name : String)
  | called (name : String) (pay : Int)
  | betMade (name : String) (amount : Int)
  | raisedTo (name : String) (amount : Int)
  | shows (name : String)
  | mucks (name : String)
deriving DecidableEq

inductive ActionKind where
  | fold | check | call | bet | raise
deriving DecidableEq

/-- Full engine state: the `RoomState` of the source plus the engine's private
fields (`streetBets`, `totalBets`, `publicReveals`, `revealSeats`,
`actionLog`).  The last three fields are ghost accounting used only to state
conservation theorems: `buyins` sums every stack admitted by `addPlayer`,
`cashout` sums stacks that left via `removePlayer`, and `lost` sums pot chips
the engine silently discards (a mid-hand `startHand`, or a showdown side pot
whose eligible seats hold no ranked hand).  No operation ever reads them. -/
structure EngineState where
  code : String
  stage : Stage
  players : List Player
  dealerSeat : Nat
  smallBlind : Int
  bigBlind : Int
  currentBet : Int
  minRaise : Int
  pot : Int
  community : List Card
  turnSeat : Int
  deck : List Card
  lastAggressorSeat : Option Int
  message : Msg
  lastWinners : List WinnerInfo
  pots : List SidePot
  streetBets : List Int
  totalBets : List Int
  publicReveals : List (Nat × Option (List Card))
  revealSeats : List Nat
  actionLog : List LogEvent
  buyins : Int
  lost : Int
  cashout : Int
deriving DecidableEq

/-! ### Small state helpers -/

/-- In-place update of one list element (JS mutation of `players[i]`);
out-of-range indices leave the list unchanged (unreachable at call sites). -/
def listModify {α : Type} (l : List α) (i : Nat) (f : α → α) : List α :=
  match l.get? i with
  | some a => l.set i (f a)
  | none => l

/-- Ledger update `l[i] = (l[i] || 0) + v`. -/
def listSetAdd (l : List Int) (i : Nat) (v : Int) : List Int :=
  l.set i (l.getD i 0 + v)

/-- Association-list `Map.set` / object-key assignment: overwrite the first
binding of the key, else append. -/
def alSet {β : Type} : List (Nat × β) → Nat → β → List (Nat × β)
  | [], k, v => [(k, v)]
  | e :: es, k, v => if e.1 = k then (k, v) :: es else e :: alSet es k v

def alGet {β : Type} : List (Nat × β) → Nat → β → β
  | [], _, d => d
  | e :: es, k, d => if e.1 = k then e.2 else alGet es k d

def alHas {β : Type} : List (Nat × β) → Nat → Bool
  | [], _ => false
  | e :: es, k => decide (e.1 = k) || alHas es k

/-- `wonBySeat.set(s, (wonBySeat.get(s) || 0) + v)`. -/
def alAdd (l : List (Nat × Int)) (k : Nat) (v : Int) : List (Nat × Int) :=
  alSet l k (alGet l k 0 + v)

/-- `publicReveals[seat]`: absent key and explicitly-stored `undefined` are
observationally the same. -/
def revealLookup : List (Nat × Option (List Card)) → Nat → Option (List Card)
  | [], _ => none
  | e :: es, k => if e.1 = k then e.2 else revealLookup es k

/-- `Set.add`: JS sets preserve insertion order. -/
def revealAdd (l : List Nat) (x : Nat) : List Nat :=
  if x ∈ l then l else l ++ [x]

def LOG_LIMIT : Nat := 200

/-- Append to the bounded action log (ring buffer of capacity 200). -/
def logEvent (s : EngineState) (e : LogEvent) : EngineState :=
  let l := s.actionLog ++ [e]
  { s with actionLog := if LOG_LIMIT < l.length then l.drop (l.length - LOG_LIMIT) else l }

/-- `resetReveals` of the source. -/
def resetReveals (s : EngineState) : EngineState :=
  { s with publicReveals := [], revealSeats := [] }

/-- `deck.pop()`: removes and returns the last element. -/
def popCard (d : List Card) : Option Card × List Card :=
  (d.getLast?, d.dropLast)

/-! ### `commitChips` -/

/-- `commitChips(seat, amount)`: pays `min(amount, stack)` (clamped at 0)
from the player's stack into the pot, marks all-in at stack 0, and bumps both
ledgers.  Returns the amount actually paid and the new state. -/
def commitChips (s : EngineState) (seat : Nat) (amount : Int) : Int × EngineState :=
  match s.players.get? seat with
  | none => (0, s)
  | some p =>
    let pay := max 0 (min amount p.stack)
    if pay ≤ 0 then (0, s)
    else
      let p' := { p with stack := p.stack - pay,
                         isAllIn := if p.stack - pay = 0 then true else p.isAllIn }
      (pay, { s with players := s.players.set seat p',
                     pot := s.pot + pay,
                     streetBets := listSetAdd s.streetBets seat pay,
                     totalBets := listSetAdd s.totalBets seat pay })

/-! ### `buildSidePots` -/

/-- The layering loop of `buildSidePots`: take the minimum positive remaining
contribution as a layer, emit a pot of `layer × #contributors` (eligible to
the in-hand contributors), subtract the layer, repeat until no positive
balance remains.  Each pass strictly shrinks the total remaining balance, so
a fuel of `remain.sum` always suffices; at fuel 0 the remaining balance is 0
and the source loop would also stop. -/
def sidePotsLoop (inHand : List Bool) : Nat → List Nat → List SidePot
  | 0, _ => []
  | fuel + 1, remain =>
    match (remain.filter (fun v => 0 < v)).min? with
    | none => []
    | some layer =>
      let contributors := (List.range remain.length).filter (fun i => 0 < remain.getD i 0)
      let amount : Int := ((layer * contributors.length : Nat) : Int)
      let eligibleSeats := contributors.filter (fun i => inHand.getD i false)
      let rest := sidePotsLoop inHand fuel (remain.map (fun v => v - layer))
      if 0 < amount then ⟨amount, eligibleSeats⟩ :: rest else rest

/-- `buildSidePots()`: layers of the cumulative per-seat ledger, with
negative (unreachable) entries clamped to zero as in the source. -/
def buildSidePots (s : EngineState) : List SidePot :=
  let n := s.players.length
  if n = 0 then []
  else
    let remain := (s.totalBets.take n).map Int.toNat
    sidePotsLoop (s.players.map Player.inHand) remain.sum remain

/-! ### Turn rotation and round closure -/

/-- The scan of `nextSeat`: try `(from+i) % n` for `i = 1 .. n`, returning
the first in-hand, non-all-in seat, else `from` itself. -/
def nextSeatLoop (players : List Player) (f : Int) : Nat → Nat → Int
  | 0, _ => f
  | k + 1, i =>
    let seat := ((f + (i : Int)) % (players.length : Int)).toNat
    match players.get? seat with
    | some p =>
      if p.inHand && !p.isAllIn then (seat : Int)
      else nextSeatLoop players f k (i+1)
    | none => nextSeatLoop players f k (i+1)

def nextSeat (s : EngineState) (f : Int) : Int :=
  nextSeatLoop s.players f s.players.length 1

/-- `everyoneActedOrAllIn()`: every in-hand, non-all-in player has acted this
street and has a street contribution matching `currentBet`. -/
def everyoneActedOrAllIn (s : EngineState) : Bool :=
  s.players.all fun p =>
    if p.inHand && !p.isAllIn then
      p.hasActedThisRound && decide (s.currentBet ≤ s.streetBets.getD p.seat 0)
    else true

/-! ### Showdown payout -/

/-- The remainder loop of `resolveShowdown`: hand out `r` single chips to
the sorted winner seats, advancing the index each time. -/
def remLoop (sorted : List Nat) : List (Nat × Int) → Nat → Nat → List (Nat × Int)
  | won, 0, _ => won
  | won, r + 1, idx =>
    let seat := sorted.getD (idx % sorted.length) 0
    remLoop sorted (alAdd won seat 1) r (idx + 1)

/-- Split one pot among `bestSeats`: each gets `floor(amount/k)`, then the
remainder is distributed one chip at a time in ascending seat order. -/
def distributePot (amount : Int) (bestSeats : List Nat) (won : List (Nat × Int)) :
    List (Nat × Int) :=
  let k : Int := (bestSeats.length : Int)
  let share := Int.ediv amount k
  let won1 := bestSeats.foldl (fun w seat => alAdd w seat share) won
  remLoop (sortAsc bestSeats) won1 (amount - share * k).toNat 0

/-- The best-hand scan for one pot: walk the eligible seats, keeping the
seats whose rank beats (category, then lexicographic tiebreak) the best so
far; ties accumulate. -/
def bestSeatsOf (rankBySeat : List (Nat × RankResult)) (elig : List Nat) : List Nat :=
  (elig.foldl (fun (acc : List Nat × Option RankResult) seat =>
    let r := alGet rankBySeat seat ⟨0, []⟩
    match acc.2 with
    | none => ([seat], some r)
    | some bR =>
      if bR.category < r.category then ([seat], some r)
      else if r.category = bR.category then
        let cmp := tieCmp r.tiebreak bR.tiebreak
        if 0 < cmp then ([seat], some r)
        else if cmp = 0 then (acc.1 ++ [seat], acc.2)
        else acc
      else acc) ([], none)).1

/-- Credit the per-seat winnings to the stacks; also returns the total
actually credited (used only for ghost accounting). -/
def applyWinnings (players : List Player) (won : List (Nat × Int)) :
    List Player × Int :=
  won.foldl (fun acc e =>
    match acc.1.get? e.1 with
    | some p => (acc.1.set e.1 { p with stack := p.stack + e.2 }, acc.2 + e.2)
    | none => acc) (players, 0)

/-- Display order of the winners list: amount descending, then seat
ascending (a total order, so the JS sort result is unique). -/
def winnerLE (a b : WinnerInfo) : Prop :=
  b.amount < a.amount ∨ (a.amount = b.amount ∧ a.seat ≤ b.seat)

instance : DecidableRel winnerLE := fun a b =>
  inferInstanceAs (Decidable (_ ∨ _))

/-- `resolveShowdown()`. -/
def resolveShowdown (s0 : EngineState) : EngineState :=
  let board := s0.community
  let contenders := s0.players.filter (fun p => p.inHand && p.hole.isSome)
  let s := resetReveals s0
  if contenders.length = 1 then
    let wi := s.players.findIdx (fun p => p.inHand && p.hole.isSome)
    match s.players.get? wi with
    | none => s
    | some w =>
      let amount := s.pot
      let s1 := { s with
        players := listModify s.players wi (fun p => { p with stack := p.stack + amount }),
        pot := 0,
        message := Msg.winsUncontested w.name,
        stage := Stage.showdown,
        turnSeat := -1,
        revealSeats := revealAdd s.revealSeats w.seat,
        lastWinners := [⟨w.seat, w.name, amount, none, catName none⟩] }
      let s2 := logEvent s1 (LogEvent.winUncontested w.name amount)
      { s2 with pots := buildSidePots s2 }
  else
    let rankBySeat : List (Nat × RankResult) :=
      contenders.map (fun p => (p.seat, rank7 (board ++ p.hole.getD [])))
    let pots := buildSidePots s
    let won : List (Nat × Int) := pots.foldl (fun won pot =>
      let elig := pot.eligibleSeats.filter (fun seat => alHas rankBySeat seat)
      if elig.isEmpty then won
      else distributePot pot.amount (bestSeatsOf rankBySeat elig) won) []
    let players' := (applyWinnings s.players won).1
    let credited := (applyWinnings s.players won).2
    let winnersList : List WinnerInfo :=
      List.insertionSort winnerLE (won.map (fun e =>
        let nm := ((s.players.get? e.1).map Player.name).getD ""
        let r := alGet rankBySeat e.1 ⟨0, []⟩
        ⟨e.1, nm, e.2, some r.category, catName (some r.category)⟩))
    let winnerSeats := winnersList.map WinnerInfo.seat
    let reveals := winnersList.foldl (fun pr w =>
      match (s.players.get? w.seat).bind Player.hole with
      | some h => alSet pr w.seat (some h)
      | none => pr) ([] : List (Nat × Option (List Card)))
    let revealSeats := contenders.foldl (fun rs p =>
      if p.seat ∈ winnerSeats then rs else revealAdd rs p.seat) ([] : List Nat)
    let s1 := { s with
      players := players',
      publicReveals := reveals,
      revealSeats := revealSeats,
      message := match winnersList with
        | [w] => Msg.winnerOne w.name w.amount
        | _ => Msg.winnersMany (winnersList.map WinnerInfo.name),
      lastWinners := winnersList,
      stage := Stage.showdown,
      turnSeat := -1,
      pot := 0,
      pots := pots,
      lost := s.lost + (s.pot - credited) }
    logEvent s1 (LogEvent.showdownResult (winnersList.map fun w => (w.name, w.amount)))

/-! ### Street advancement -/

/-- `advanceStage()`: reset flags/street ledger/current bet, deal the next
street (burn one, then reveal), or resolve the showdown after the river.
A deck too short to deal (unreachable for a real 52-card deck) simply
reveals fewer cards. -/
def advanceStage (s0 : EngineState) : EngineState :=
  let s : EngineState := { s0 with
    players := s0.players.map (fun p => ({ p with hasActedThisRound := false } : Player)),
    currentBet := 0,
    minRaise := s0.bigBlind,
    streetBets := List.replicate s0.players.length 0 }
  match s.stage with
  | .preflop =>
    let (_, d0) := popCard s.deck
    let (c1, d1) := popCard d0
    let (c2, d2) := popCard d1
    let (c3, d3) := popCard d2
    let cs := [c1, c2, c3].reduceOption
    let s1 := { s with deck := d3, community := s.community ++ cs,
                       stage := Stage.flop,
                       turnSeat := nextSeat s (s.dealerSeat : Int) }
    let s2 := logEvent s1 (LogEvent.flopDealt cs)
    { s2 with message := Msg.nextStreet }
  | .flop =>
    let (_, d0) := popCard s.deck
    let (c, d1) := popCard d0
    let cs := [c].reduceOption
    let s1 := { s with deck := d1, community := s.community ++ cs,
                       stage := Stage.turn,
                       turnSeat := nextSeat s (s.dealerSeat : Int) }
    let s2 := logEvent s1 (LogEvent.turnDealt cs)
    { s2 with message := Msg.nextStreet }
  | .turn =>
    let (_, d0) := popCard s.deck
    let (c, d1) := popCard d0
    let cs := [c].reduceOption
    let s1 := { s with deck := d1, community := s.community ++ cs,
                       stage := Stage.river,
                       turnSeat := nextSeat s (s.dealerSeat : Int) }
    let s2 := logEvent s1 (LogEvent.riverDealt cs)
    { s2 with message := Msg.nextStreet }
  | .river =>
    resolveShowdown { s with stage := Stage.showdown }
  | _ => { s with message := Msg.nextStreet }

/-! ### Hand start -/

/-- Deal two hole cards (two `deck.pop()`s) to each in-hand player, in seat
order; returns the updated players and remaining deck. -/
def dealHoles : List Player → List Card → List Player × List Card
  | [], d => ([], d)
  | p :: ps, d =>
    if p.inHand then
      let (c1, d1) := popCard d
      let (c2, d2) := popCard d1
      let (ps', d') := dealHoles ps d2
      (({ p with hole := some ([c1, c2].reduceOption) } : Player) :: ps', d')
    else
      let (ps', d') := dealHoles ps d
      (p :: ps', d')

/-- `postBlind(seat, amount)`. -/
def postBlind (s : EngineState) (seat : Nat) (amount : Int) : EngineState :=
  let paid := (commitChips s seat amount).1
  let s1 := (commitChips s seat amount).2
  let nm := ((s1.players.get? seat).map Player.name).getD ""
  logEvent s1 (LogEvent.posts nm paid)

/-- `startHand()`.  The source shuffles a fresh deck with `Math.random`;
the shuffle outcome is taken here as the parameter `deck`.  Ghost: a pot
discarded by a mid-hand restart is added to `lost`. -/
def startHand (s0 : EngineState) (deck : List Card) : EngineState :=
  if s0.players.length < 2 then { s0 with message := Msg.needPlayers }
  else
    let s : EngineState := { s0 with
      deck := deck,
      community := [],
      lost := s0.lost + s0.pot,
      pot := 0,
      stage := Stage.preflop,
      currentBet := 0,
      minRaise := s0.bigBlind,
      players := s0.players.map (fun p =>
        ({ p with inHand := 0 < p.stack, isAllIn := false,
                  hasActedThisRound := false, hole := none } : Player)),
      publicReveals := [],
      revealSeats := [],
      lastWinners := [],
      streetBets := List.replicate s0.players.length 0,
      totalBets := List.replicate s0.players.length 0,
      pots := [] }
    let s : EngineState := { s with dealerSeat := (s.dealerSeat + 1) % s.players.length }
    let (players', deck') := dealHoles s.players s.deck
    let s : EngineState := { s with players := players', deck := deck' }
    let sbSeat := (s.dealerSeat + 1) % s.players.length
    let bbSeat := (s.dealerSeat + 2) % s.players.length
    let s := postBlind s sbSeat s.smallBlind
    let s := postBlind s bbSeat s.bigBlind
    let s : EngineState := { s with
      currentBet := s.bigBlind,
      turnSeat := (((s.dealerSeat + 3) % s.players.length : Nat) : Int),
      lastAggressorSeat := some ((bbSeat : Nat) : Int),
      message := Msg.newHand }
    let dealerName := ((s.players.get? s.dealerSeat).map Player.name).getD "Dealer"
    let sbName := ((s.players.get? sbSeat).map Player.name).getD "SB"
    let bbName := ((s.players.get? bbSeat).map Player.name).getD "BB"
    logEvent s (LogEvent.handStarted dealerName sbName bbName s.smallBlind s.bigBlind)

/-! ### Join / leave / blinds -/

def MAX_PLAYERS : Nat := 9

/-- `addPlayer(id, name, stack, owner)`: rejects a full table or a taken
name; stores `max(1, floor(stack))` as the stack.  Ghost: the stored stack
is added to `buyins`. -/
def addPlayer (s : EngineState) (id name : String) (stack : ℚ) (owner : Bool) :
    Bool × EngineState :=
  if MAX_PLAYERS ≤ s.players.length then (false, s)
  else if s.players.any (fun p => p.name = name) then (false, s)
  else
    let seat := s.players.length
    let stored : Int := max 1 ⌊stack⌋
    let p : Player := ⟨id, name, stored, seat, none, true, false, false, owner⟩
    let s1 : EngineState := { s with
      players := s.players ++ [p],
      streetBets := s.streetBets ++ [0],
      totalBets := s.totalBets ++ [0],
      buyins := s.buyins + stored }
    (true, logEvent s1 (LogEvent.joined name seat stack))

/-- `removePlayer(id)`: drop the seat, compact seat indices, truncate both
ledgers, reset to `waiting` when the table empties.  Ghost: the departing
stack is added to `cashout`. -/
def removePlayer (s : EngineState) (id : String) : EngineState :=
  match s.players.findIdx? (fun p => p.id = id) with
  | none => s
  | some idx =>
    match s.players.get? idx with
    | none => s
    | some p =>
      let players' := (s.players.eraseIdx idx).enum.map
        (fun e => ({ e.2 with seat := e.1 } : Player))
      let s1 : EngineState := { s with
        players := players',
        streetBets := s.streetBets.eraseIdx idx,
        totalBets := s.totalBets.eraseIdx idx,
        cashout := s.cashout + p.stack }
      let s2 := logEvent s1 (LogEvent.left p.name)
      if s2.players.length = 0 then { s2 with stage := Stage.waiting } else s2

/-- `setBlinds(sb, bb)`: `Math.max(1, Math.floor(sb || 1))` and
`Math.max(s, Math.floor(bb || 2))`; also pins `minRaise` to the big blind. -/
def setBlinds (s : EngineState) (sb bb : ℚ) : EngineState :=
  let sVal : Int := max 1 ⌊(if sb = 0 then 1 else sb)⌋
  let bVal : Int := max sVal ⌊(if bb = 0 then 2 else bb)⌋
  { s with smallBlind := sVal, bigBlind := bVal, minRaise := bVal }

/-! ### Reveal / muck -/

/-- `canReveal(id)`: only at showdown, only for seats in the voluntary set. -/
def canReveal (s : EngineState) (id : String) : Bool :=
  match s.players.find? (fun p => p.id = id) with
  | none => false
  | some p => decide (s.stage = Stage.showdown) && s.revealSeats.contains p.seat

/-- `doShow(id)`: publish the hole cards, leave the voluntary set. -/
def doShow (s : EngineState) (id : String) : Bool × EngineState :=
  match s.players.find? (fun p => p.id = id) with
  | none => (false, s)
  | some p =>
    if canReveal s id then
      let s1 : EngineState := match p.hole with
        | some h => { s with publicReveals := alSet s.publicReveals p.seat (some h) }
        | none => s
      let s2 : EngineState := { s1 with revealSeats := s1.revealSeats.erase p.seat }
      (true, logEvent s2 (LogEvent.shows p.name))
    else (false, s)

/-- `doMuck(id)`: withhold the hole cards, leave the voluntary set. -/
def doMuck (s : EngineState) (id : String) : Bool × EngineState :=
  match s.players.find? (fun p => p.id = id) with
  | none => (false, s)
  | some p =>
    if canReveal s id then
      let s1 : EngineState := { s with publicReveals := alSet s.publicReveals p.seat none }
      let s2 : EngineState := { s1 with revealSeats := s1.revealSeats.erase p.seat }
      (true, logEvent s2 (LogEvent.mucks p.name))
    else (false, s)

/-! ### `playerAction` -/

/-- Apply one validated action (the body of the `kind === ...` chain).
Returns `none` for a rejected action (the source returns `false` without
touching state), otherwise the updated state and whether the hand ended
immediately (the fold-to-one shortcut, which skips round closure). -/
def applyKind (s : EngineState) (actor : Player) (ti : Nat)
    (kind : ActionKind) (amount : Option ℚ) : Option (EngineState × Bool) :=
  let seat := actor.seat
  let contributed := s.streetBets.getD seat 0
  let toCall := max 0 (s.currentBet - contributed)
  let minRaise := s.bigBlind
  match kind with
  | .fold =>
    let ps1 := listModify s.players ti
      (fun p => { p with inHand := false, hasActedThisRound := true })
    let s1 : EngineState := { s with players := ps1 }
    let s1 := logEvent s1 (LogEvent.folded actor.name)
    if (s1.players.filter (fun p => p.inHand)).length = 1 then
      let wi := s1.players.findIdx (fun p => p.inHand)
      match s1.players.get? wi with
      | none => some (s1, false)
      | some w =>
        let amt := s1.pot
        let s2 : EngineState := { s1 with
          players := listModify s1.players wi (fun p => { p with stack := p.stack + amt }),
          pot := 0,
          message := Msg.winsUncontested w.name,
          stage := Stage.showdown,
          turnSeat := -1 }
        let s2 := resetReveals s2
        let s2 : EngineState := { s2 with
          revealSeats := revealAdd s2.revealSeats w.seat,
          lastWinners := [⟨w.seat, w.name, amt, none, catName none⟩] }
        let s2 := logEvent s2 (LogEvent.winUncontested w.name amt)
        some ({ s2 with pots := buildSidePots s2 }, true)
    else some (s1, false)
  | .check =>
    if toCall ≠ 0 then none
    else
      let ps1 := listModify s.players ti (fun p => { p with hasActedThisRound := true })
      let s1 : EngineState := { s with players := ps1 }
      some (logEvent s1 (LogEvent.checked actor.name), false)
  | .call =>
    if toCall ≤ 0 then none
    else
      let pay := (commitChips s seat toCall).1
      let s1 := (commitChips s seat toCall).2
      if pay ≤ 0 then none
      else
        let ps2 := listModify s1.players ti (fun p => { p with hasActedThisRound := true })
        let s2 : EngineState := { s1 with players := ps2 }
        some (logEvent s2 (LogEvent.called actor.name pay), false)
  | .bet =>
    if s.currentBet ≠ 0 then none
    else
      let desired := max s.bigBlind ⌊(amount.getD 0)⌋
      if desired ≤ 0 then none
      else
        let need := max 0 (desired - contributed)
        let pay := (commitChips s seat need).1
        let s1 := (commitChips s seat need).2
        if pay ≤ 0 then none
        else
          let newCB := max s1.currentBet (s1.streetBets.getD seat 0)
          let s2 : EngineState := { s1 with
            currentBet := newCB,
            minRaise := s1.bigBlind,
            lastAggressorSeat := some ((actor.seat : Nat) : Int),
            players := s1.players.map (fun p =>
              if p.seat != actor.seat && p.inHand && !p.isAllIn then
                ({ p with hasActedThisRound := false } : Player)
              else p) }
          let ps3 := listModify s2.players ti (fun p => { p with hasActedThisRound := true })
          let s3 : EngineState := { s2 with players := ps3 }
          some (logEvent s3 (LogEvent.betMade actor.name newCB), false)
  | .raise =>
    let raiseTo := max (s.currentBet + minRaise) ⌊(amount.getD 0)⌋
    if raiseTo ≤ s.currentBet then none
    else
      let need := max 0 (raiseTo - contributed)
      let pay := (commitChips s seat need).1
      let s1 := (commitChips s seat need).2
      if pay ≤ 0 then none
      else
        let prev := s.currentBet
        let sbSeat := s1.streetBets.getD seat 0
        let s2 : EngineState :=
          if prev < sbSeat then
            { s1 with
              currentBet := sbSeat,
              minRaise := s1.bigBlind,
              lastAggressorSeat := some ((actor.seat : Nat) : Int),
              players := s1.players.map (fun p =>
                if p.seat != actor.seat && p.inHand && !p.isAllIn then
                  ({ p with hasActedThisRound := false } : Player)
                else p) }
          else s1
        let ps3 := listModify s2.players ti (fun p => { p with hasActedThisRound := true })
        let s3 : EngineState := { s2 with players := ps3 }
        some (logEvent s3 (LogEvent.raisedTo actor.name s3.currentBet), false)

/-- The round-closure step at the end of `playerAction`: advance the stage
when every active player has acted and matched, else pass the turn. -/
def closeRound (s : EngineState) : EngineState :=
  if isBettingStage s.stage then
    if everyoneActedOrAllIn s then advanceStage s
    else { s with turnSeat := nextSeat s s.turnSeat }
  else s

/-- `playerAction(id, kind, amount?)`: `none` models a `false` return (no
state change); `some` models `true` with the resulting state. -/
def playerAction (s : EngineState) (id : String) (kind : ActionKind)
    (amount : Option ℚ) : Option EngineState :=
  if ¬ isBettingStage s.stage then none
  else if s.turnSeat < 0 then none
  else match s.players.get? s.turnSeat.toNat with
    | none => none
    | some actor =>
      if actor.id ≠ id ∨ ¬ actor.inHand ∨ actor.isAllIn then none
      else
        (applyKind s actor s.turnSeat.toNat kind amount).map
          (fun r => if r.2 then r.1 else closeRound r.1)

/-! ### Views -/

/-- One player entry of the broadcast view: the private hole cards are
replaced by their count plus that seat's publicly revealed cards. -/
structure PubPlayer where
  id : String
  name : String
  stack : Int
  seat : Nat
  inHand : Bool
  hasActedThisRound : Bool
  isAllIn : Bool
  isOwner : Bool
  holeCount : Nat
  publicHole : Option (List Card)
deriving DecidableEq

/-- The broadcast view: the room state minus the deck, with per-player
public entries, freshly built side pots, reveal-eligible seats, last
winners, and the action log. -/
structure BroadcastView where
  code : String
  stage : Stage
  dealerSeat : Nat
  smallBlind : Int
  bigBlind : Int
  currentBet : Int
  minRaise : Int
  pot : Int
  community : List Card
  turnSeat : Int
  lastAggressorSeat : Option Int
  message : Msg
  pots : List SidePot
  players : List PubPlayer
  revealSeats : List Nat
  lastWinners : List WinnerInfo
  actionLog : List LogEvent
deriving DecidableEq

/-- `getBroadcastView()`. -/
def getBroadcastView (s : EngineState) : BroadcastView :=
  { code := s.code,
    stage := s.stage,
    dealerSeat := s.dealerSeat,
    smallBlind := s.smallBlind,
    bigBlind := s.bigBlind,
    currentBet := s.currentBet,
    minRaise := s.minRaise,
    pot := s.pot,
    community := s.community,
    turnSeat := s.turnSeat,
    lastAggressorSeat := s.lastAggressorSeat,
    message := s.message,
    pots := buildSidePots s,
    players := s.players.map (fun p =>
      ⟨p.id, p.name, p.stack, p.seat, p.inHand, p.hasActedThisRound, p.isAllIn,
       p.isOwner, (p.hole.getD []).length, revealLookup s.publicReveals p.seat⟩),
    revealSeats := s.revealSeats,
    lastWinners := s.lastWinners,
    actionLog := s.actionLog }

/-! ### Operation sequences -/

/-- The engine's mutating entry points; `startHand` carries the shuffle
outcome as data. -/
inductive Op where
  | addPlayer (id name : String) (stack : ℚ) (owner : Bool)
  | removePlayer (id : String)
  | setBlinds (sb bb : ℚ)
  | startHand (deck : List Card)
  | playerAction (id : String) (kind : ActionKind) (amount : Option ℚ)
  | doShow (id : String)
  | doMuck (id : String)

/-- One engine call; a rejected `playerAction` leaves the state unchanged. -/
def step (s : EngineState) : Op → EngineState
  | .addPlayer id name st ow => (addPlayer s id name st ow).2
  | .removePlayer id => removePlayer s id
  | .setBlinds a b => setBlinds s a b
  | .startHand d => startHand s d
  | .playerAction id k a => (playerAction s id k a).getD s
  | .doShow id => (doShow s id).2
  | .doMuck id => (doMuck s id).2

/-- The constructor state of `PokerEngine`. -/
def initState (code : String) : EngineState :=
  { code := code, stage := Stage.waiting, players := [], dealerSeat := 0,
    smallBlind := 1, bigBlind := 2, currentBet := 0, minRaise := 2, pot := 0,
    community := [], turnSeat := 0, deck := [], lastAggressorSeat := none,
    message := Msg.empty, lastWinners := [], pots := [], streetBets := [],
    totalBets := [], publicReveals := [], revealSeats := [], actionLog := [],
    buyins := 0, lost := 0, cashout := 0 }

/-- A fresh table driven through a sequence of engine calls. -/
def run (ops : List Op) : EngineState := ops.foldl step (initState "")

/-- Sum of all players' stacks. -/
def sumStacks (s : EngineState) : Int := (s.players.map Player.stack).sum

/-- Sum of the side-pot amounts currently stored in the state. -/
def sumPots (s : EngineState) : Int := (s.pots.map SidePot.amount).sum

/-! ## Concrete fixtures used by witnesses and counterexamples -/

/-- The unshuffled 52-card deck of `makeDeck` (suits outer, ranks inner). -/
def fullDeck : List Card :=
  (List.range 4).flatMap (fun s => (List.range 13).map (fun i => ⟨i + 2, s⟩))

/-- A player record as `addPlayer` would create it. -/
def mkPlayer (id name : String) (stack : Int) (seat : Nat) : Player :=
  ⟨id, name, stack, seat, none, true, false, false, false⟩

/-! ## Claims -/

/-- C10: every successful `addPlayer` stores the new player's stack as
`max(1, floor(requested))`, so an admitted player always starts with at
least one chip, even for a zero, negative, or fractional request. -/
theorem addPlayer_stack_floor_clamp (s : EngineState) (id name : String)
    (q : ℚ) (owner : Bool) (h : (addPlayer s id name q owner).1 = true) :
    ∃ p : Player, (addPlayer s id name q owner).2.players.getLast? = some p ∧
      p.stack = max 1 ⌊q⌋ ∧ 1 ≤ p.stack := by
  by_cases h1 : MAX_PLAYERS ≤ s.players.length
  · simp [addPlayer, h1] at h
  · by_cases h2 : s.players.any (fun p => p.name = name)
    · simp [addPlayer, h1, h2] at h
    · refine ⟨⟨id, name, max 1 ⌊q⌋, s.players.length, none, true, false, false, owner⟩,
        ?_, rfl, le_max_left 1 ⌊q⌋⟩
      simp [addPlayer, h1, h2, logEvent, List.getLast?_concat]

/-- C10 witness: a fractional negative request of -5/2 is admitted with a
one-chip stack. -/
theorem addPlayer_stack_floor_clamp_witness :
    (addPlayer (initState "") "a" "A" (-5/2) false).1 = true ∧
    ∃ p : Player,
      (addPlayer (initState "") "a" "A" (-5/2) false).2.players.getLast? = some p ∧
      p.stack = max 1 ⌊(-5/2 : ℚ)⌋ ∧ 1 ≤ p.stack :=
  ⟨by decide, addPlayer_stack_floor_clamp (initState "") "a" "A" (-5/2) false (by decide)⟩

/-- C2: `buildSidePots` on the cumulative ledger `[10, 30, 50]` with all
three seats in-hand produces, in order, a pot of 30 eligible to seats
0,1,2, a pot of 40 eligible to seats 1,2, and a pot of 20 eligible to
seat 2 only — the minimum positive remaining contribution is taken as a
layer, the pot is `layer × #contributors` restricted to in-hand seats, the
layer is subtracted everywhere, and the loop stops when nothing remains. -/
theorem buildSidePots_layering_example (s : EngineState)
    (h1 : s.players.map Player.inHand = [true, true, true])
    (h2 : s.totalBets = [10, 30, 50]) :
    buildSidePots s = [⟨30, [0, 1, 2]⟩, ⟨40, [1, 2]⟩, ⟨20, [2]⟩] := by
  have hlen : s.players.length = 3 := by
    have h := congrArg List.length h1
    simpa using h
  simp only [buildSidePots, hlen, h1, h2]
  decide

/-- C2 witness: the layering example evaluated on a concrete table state. -/
theorem buildSidePots_layering_example_witness :
    buildSidePots { initState "" with
        players := [mkPlayer "a" "A" 0 0, mkPlayer "b" "B" 0 1, mkPlayer "c" "C" 0 2],
        totalBets := [10, 30, 50] } =
      [⟨30, [0, 1, 2]⟩, ⟨40, [1, 2]⟩, ⟨20, [2]⟩] :=
  buildSidePots_layering_example _ (by decide) rfl

/-- Evaluation of `commitChips` when the looked-up player exists and the
clamped payment is positive. -/
theorem commitChips_of_pos (s : EngineState) (seat : Nat) (amount : Int)
    (p : Player) (hp : s.players.get? seat = some p)
    (hpos : 0 < min amount p.stack) :
    commitChips s seat amount =
      (min amount p.stack,
       { s with
         players := s.players.set seat
           { p with stack := p.stack - min amount p.stack,
                    isAllIn := if p.stack - min amount p.stack = 0 then true
                               else p.isAllIn },
         pot := s.pot + min amount p.stack,
         streetBets := listSetAdd s.streetBets seat (min amount p.stack),
         totalBets := listSetAdd s.totalBets seat (min amount p.stack) }) := by
  have hmax : max 0 (min amount p.stack) = min amount p.stack :=
    max_eq_right (le_of_lt hpos)
  simp only [commitChips, hp, hmax]
  rw [if_neg (not_le.mpr hpos)]

/-- Reading back a just-written ledger entry. -/
theorem listSetAdd_getD (l : List Int) (i : Nat) (v : Int) (h : i < l.length) :
    (listSetAdd l i v).getD i 0 = l.getD i 0 + v := by
  simp [listSetAdd, List.getD, List.getElem?_set_self h]

/-- C3 counterexample: three players, blinds 1/2 posted, `currentBet = 2`,
pinned minimum raise = big blind = 2; player B requests a raise with amount
0 (target far below `currentBet + minRaise = 4`).  The claim says such an
action is silently refused with no state change; the engine instead accepts
it (clamping the target up), returning success and a changed state. -/
def raiseCexOps : List Op :=
  [.addPlayer "a" "A" 50 true, .addPlayer "b" "B" 50 false,
   .addPlayer "c" "C" 50 false, .startHand fullDeck]

theorem small_raise_not_rejected_cex :
    ⌊((0 : ℚ))⌋ < (run raiseCexOps).currentBet + (run raiseCexOps).minRaise ∧
    (playerAction (run raiseCexOps) "b" ActionKind.raise (some 0)).isSome = true ∧
    playerAction (run raiseCexOps) "b" ActionKind.raise (some 0) ≠
      some (run raiseCexOps) := by
  decide

/-- C3 amended: a raise whose requested amount gives a target total street
contribution below `currentBet + minRaise` (with `minRaise` pinned to the
big blind) is not refused: the target is clamped up to
`currentBet + bigBlind` and the action is applied, the actor paying the
shortfall up to their stack.  `playerAction` succeeds whenever the usual
turn/stage/actor guards pass and the actor has chips. -/
theorem raise_below_min_clamped (s : EngineState) (id : String) (q : Option ℚ)
    (actor : Player)
    (hstage : isBettingStage s.stage = true)
    (hts : 0 ≤ s.turnSeat)
    (hactor : s.players.get? s.turnSeat.toNat = some actor)
    (hid : actor.id = id) (hin : actor.inHand = true) (hallin : actor.isAllIn = false)
    (hseat : s.players.get? actor.seat = some actor)
    (hseatlen : actor.seat < s.totalBets.length)
    (hbb : 0 < s.bigBlind)
    (hcontrib : s.streetBets.getD actor.seat 0 ≤ s.currentBet)
    (hstack : 0 < actor.stack)
    (hsmall : ⌊(q.getD 0 : ℚ)⌋ < s.currentBet + s.bigBlind) :
    (playerAction s id ActionKind.raise q).isSome = true ∧
    ∃ s1 : EngineState,
      applyKind s actor s.turnSeat.toNat ActionKind.raise q = some (s1, false) ∧
      s1.totalBets.getD actor.seat 0 =
        s.totalBets.getD actor.seat 0 +
          min (s.currentBet + s.bigBlind - s.streetBets.getD actor.seat 0) actor.stack := by
  have hmax : max (s.currentBet + s.bigBlind) ⌊(q.getD 0 : ℚ)⌋ =
      s.currentBet + s.bigBlind := max_eq_left (le_of_lt hsmall)
  set contributed := s.streetBets.getD actor.seat 0 with hc
  have hneedpos : 0 < s.currentBet + s.bigBlind - contributed := by omega
  have hneedmax : max 0 (s.currentBet + s.bigBlind - contributed) =
      s.currentBet + s.bigBlind - contributed := max_eq_right (le_of_lt hneedpos)
  have hpaypos : 0 < min (s.currentBet + s.bigBlind - contributed) actor.stack :=
    lt_min hneedpos hstack
  have hcommit := commitChips_of_pos s actor.seat
    (s.currentBet + s.bigBlind - contributed) actor hseat hpaypos
  have happly : ∃ s1 : EngineState,
      applyKind s actor s.turnSeat.toNat ActionKind.raise q = some (s1, false) ∧
      s1.totalBets = listSetAdd s.totalBets actor.seat
        (min (s.currentBet + s.bigBlind - contributed) actor.stack) := by
    simp only [applyKind, ← hc, hmax, hneedmax, hcommit]
    rw [if_neg (by omega : ¬ s.currentBet + s.bigBlind ≤ s.currentBet)]
    rw [if_neg (not_le.mpr hpaypos)]
    split
    · exact ⟨_, rfl, rfl⟩
    · exact ⟨_, rfl, rfl⟩
  obtain ⟨s1, h1, h2⟩ := happly
  have hactor2 : s.players[s.turnSeat.toNat]? = some actor := by
    simpa [← List.get?_eq_getElem?] using hactor
  refine ⟨?_, s1, h1, ?_⟩
  · simp [playerAction, hstage, hactor2, hid, hin, hallin, h1, not_lt.mpr hts]
  · rw [h2, listSetAdd_getD _ _ _ hseatlen]

/-- C3 amended witness: the counterexample state run through the amended
statement — B's request of 0 is clamped to a raise target of 4; B pays 3
more (having posted the small blind of 1), and the cumulative ledger
records 4. -/
theorem raise_below_min_clamped_witness :
    (playerAction (run raiseCexOps) "b" ActionKind.raise (some 0)).isSome = true ∧
    ∃ s1 : EngineState,
      applyKind (run raiseCexOps)
        ⟨"b", "B", 50, 1, some [⟨12, 3⟩, ⟨11, 3⟩], true, false, false, false⟩ 1
        ActionKind.raise (some 0) = some (s1, false) ∧
      s1.totalBets.getD 1 0 = 4 := by
  have h := raise_below_min_clamped (run raiseCexOps) "b" (some 0)
    ⟨"b", "B", 50, 1, some [⟨12, 3⟩, ⟨11, 3⟩], true, false, false, false⟩
    (by decide) (by decide) (by decide) (by decide) (by decide) (by decide)
    (by decide) (by decide) (by decide) (by decide) (by decide) (by decide)
  obtain ⟨hs, s1, h1, h2⟩ := h
  exact ⟨hs, s1, by simpa using h1, by simpa using h2⟩

/-- Marking the acting player folded (the first mutation of the `fold`
branch of `playerAction`). -/
def foldMark (s : EngineState) (ti : Nat) : List Player :=
  listModify s.players ti
    (fun p => { p with inHand := false, hasActedThisRound := true })

/-- C8: if a fold leaves exactly one in-hand player, the hand ends
immediately mid-street — the survivor's stack is credited the whole pot, the
stage moves to showdown, the seat-to-act becomes the `-1` none-sentinel, the
survivor is the sole member of the voluntary-reveal set with no automatic
reveal (`publicReveals` is cleared), and last-winners records one
uncontested winner with no category. -/
theorem fold_to_one_ends_hand (s : EngineState) (id : String) (actor w : Player)
    (hstage : isBettingStage s.stage = true)
    (hts : 0 ≤ s.turnSeat)
    (hactor : s.players.get? s.turnSeat.toNat = some actor)
    (hid : actor.id = id) (hin : actor.inHand = true) (hallin : actor.isAllIn = false)
    (hone : ((foldMark s s.turnSeat.toNat).filter (fun p => p.inHand)).length = 1)
    (hwin : (foldMark s s.turnSeat.toNat).get?
        ((foldMark s s.turnSeat.toNat).findIdx (fun p => p.inHand)) = some w) :
    ∃ s' : EngineState, playerAction s id ActionKind.fold none = some s' ∧
      s'.stage = Stage.showdown ∧
      s'.turnSeat = -1 ∧
      s'.pot = 0 ∧
      s'.players.get? ((foldMark s s.turnSeat.toNat).findIdx (fun p => p.inHand)) =
        some ({ w with stack := w.stack + s.pot }) ∧
      s'.revealSeats = [w.seat] ∧
      s'.publicReveals = [] ∧
      s'.lastWinners = [⟨w.seat, w.name, s.pot, none, catName none⟩] := by
  have hactor2 : s.players[s.turnSeat.toNat]? = some actor := by
    simpa [← List.get?_eq_getElem?] using hactor
  set ti := s.turnSeat.toNat with hti
  set wi := (foldMark s ti).findIdx (fun p => p.inHand) with hwi
  have hwin2 : (foldMark s ti)[wi]? = some w := by
    simpa [← List.get?_eq_getElem?] using hwin
  have happly : applyKind s actor ti ActionKind.fold none =
      some (let s2 : EngineState := { s with
              players := listModify (foldMark s ti) wi
                (fun p => { p with stack := p.stack + s.pot }),
              pot := 0,
              message := Msg.winsUncontested w.name,
              stage := Stage.showdown,
              turnSeat := -1,
              publicReveals := [],
              revealSeats := [w.seat],
              lastWinners := [⟨w.seat, w.name, s.pot, none, catName none⟩] }
            ({ logEvent (logEvent s2 (LogEvent.folded actor.name))
                 (LogEvent.winUncontested w.name s.pot) with
               pots := buildSidePots (logEvent (logEvent s2 (LogEvent.folded actor.name))
                 (LogEvent.winUncontested w.name s.pot)) }, true)) := by
    simp only [applyKind, logEvent, foldMark] at *
    simp [hone, hwin2, resetReveals, revealAdd, ← hwi]
  have hrun : playerAction s id ActionKind.fold none =
      (applyKind s actor ti ActionKind.fold none).map
        (fun r => if r.2 then r.1 else closeRound r.1) := by
    simp [playerAction, hstage, hactor2, hid, hin, hallin, not_lt.mpr hts, ← hti]
  rw [happly] at hrun
  simp only [Option.map_some', if_true] at hrun
  have hlt : wi < (foldMark s ti).length := by
    rcases Nat.lt_or_ge wi (foldMark s ti).length with h | h
    · exact h
    · exfalso
      rw [List.getElem?_eq_none h] at hwin2
      exact Option.noConfusion hwin2
  refine ⟨_, hrun, by simp [logEvent], by simp [logEvent], by simp [logEvent], ?_,
    by simp [logEvent], by simp [logEvent], by simp [logEvent]⟩
  simp only [logEvent]
  simp [listModify, List.get?_eq_getElem?, hwin2, List.getElem?_set_self hlt, ← hwi]

/-- C8 witness: heads-up, the small blind folds preflop; the big blind is
credited the 3-chip pot (stack 8 to 11), stage showdown, turn seat -1, only
the survivor may reveal, nothing auto-revealed, one uncontested winner. -/
def foldCexOps : List Op :=
  [.addPlayer "a" "A" 10 true, .addPlayer "b" "B" 10 false, .startHand fullDeck]

theorem fold_to_one_ends_hand_witness :
    ∃ s' : EngineState, playerAction (run foldCexOps) "a" ActionKind.fold none = some s' ∧
      s'.stage = Stage.showdown ∧
      s'.turnSeat = -1 ∧
      s'.pot = 0 ∧
      s'.players.get? ((foldMark (run foldCexOps) (run foldCexOps).turnSeat.toNat).findIdx
          (fun p => p.inHand)) =
        some ({ (⟨"b", "B", 8, 1, some [⟨12, 3⟩, ⟨11, 3⟩], true, false, false,
                  false⟩ : Player) with stack := 8 + (run foldCexOps).pot }) ∧
      s'.revealSeats = [1] ∧
      s'.publicReveals = [] ∧
      s'.lastWinners = [⟨1, "B", (run foldCexOps).pot, none, catName none⟩] :=
  fold_to_one_ends_hand (run foldCexOps) "a"
    ⟨"a", "A", 9, 0, some [⟨14, 3⟩, ⟨13, 3⟩], true, false, false, true⟩
    ⟨"b", "B", 8, 1, some [⟨12, 3⟩, ⟨11, 3⟩], true, false, false, false⟩
    (by decide) (by decide) (by decide) (by decide) (by decide) (by decide)
    (by decide) (by decide)

/-- The public projection of a player: everything the broadcast view may
depend on — the hole cards enter only through their count. -/
def pubProj (p : Player) : PubPlayer :=
  ⟨p.id, p.name, p.stack, p.seat, p.inHand, p.hasActedThisRound, p.isAllIn,
   p.isOwner, (p.hole.getD []).length, none⟩

theorem buildSidePots_ext (s t : EngineState)
    (hp : s.players.map pubProj = t.players.map pubProj)
    (htb : s.totalBets = t.totalBets) :
    buildSidePots s = buildSidePots t := by
  have hlen : s.players.length = t.players.length := by
    have h := congrArg List.length hp
    simpa using h
  have hin : s.players.map Player.inHand = t.players.map Player.inHand := by
    have h1 : s.players.map Player.inHand =
        (s.players.map pubProj).map PubPlayer.inHand := by
      rw [List.map_map]; rfl
    have h2 : t.players.map Player.inHand =
        (t.players.map pubProj).map PubPlayer.inHand := by
      rw [List.map_map]; rfl
    rw [h1, h2, hp]
  simp only [buildSidePots, hlen, hin, htb]

/-- C9: broadcast-view secrecy.  The view contains neither the undealt deck
nor any hole-card values: any two engine states that agree on everything
except the deck and the (unrevealed) hole-card values — same hole-card
counts, same public reveals — produce identical broadcast views. -/
theorem getBroadcastView_secrecy (s t : EngineState)
    (hcode : s.code = t.code) (hstage : s.stage = t.stage)
    (hdealer : s.dealerSeat = t.dealerSeat) (hsb : s.smallBlind = t.smallBlind)
    (hbb : s.bigBlind = t.bigBlind) (hcb : s.currentBet = t.currentBet)
    (hmr : s.minRaise = t.minRaise) (hpot : s.pot = t.pot)
    (hcomm : s.community = t.community) (hturn : s.turnSeat = t.turnSeat)
    (hagg : s.lastAggressorSeat = t.lastAggressorSeat)
    (hmsg : s.message = t.message)
    (hplayers : s.players.map pubProj = t.players.map pubProj)
    (htb : s.totalBets = t.totalBets)
    (hpr : s.publicReveals = t.publicReveals)
    (hrs : s.revealSeats = t.revealSeats)
    (hlw : s.lastWinners = t.lastWinners)
    (hlog : s.actionLog = t.actionLog) :
    getBroadcastView s = getBroadcastView t := by
  have hview : ∀ u : EngineState,
      u.players.map (fun p =>
        (⟨p.id, p.name, p.stack, p.seat, p.inHand, p.hasActedThisRound, p.isAllIn,
          p.isOwner, (p.hole.getD []).length,
          revealLookup u.publicReveals p.seat⟩ : PubPlayer)) =
      (u.players.map pubProj).map
        (fun q => { q with publicHole := revealLookup u.publicReveals q.seat }) := by
    intro u
    rw [List.map_map]
    rfl
  simp only [getBroadcastView, BroadcastView.mk.injEq]
  exact ⟨hcode, hstage, hdealer, hsb, hbb, hcb, hmr, hpot, hcomm, hturn, hagg,
    hmsg, buildSidePots_ext s t hplayers htb,
    by rw [hview s, hview t, hplayers, hpr], hrs, hlw, hlog⟩

/-- C9 witness: two heads-up games reaching the flop with decks that differ
exactly in the four dealt hole cards; the broadcast views coincide. -/
def deckB9 : List Card :=
  [⟨3, 0⟩, ⟨2, 0⟩] ++ (fullDeck.drop 2).take 46 ++ [⟨14, 3⟩, ⟨13, 3⟩, ⟨12, 3⟩, ⟨11, 3⟩]

def viewOpsA : List Op :=
  [.addPlayer "a" "A" 10 true, .addPlayer "b" "B" 10 false, .startHand fullDeck,
   .playerAction "a" .call none, .playerAction "b" .check none]

def viewOpsB : List Op :=
  [.addPlayer "a" "A" 10 true, .addPlayer "b" "B" 10 false, .startHand deckB9,
   .playerAction "a" .call none, .playerAction "b" .check none]

set_option maxHeartbeats 2000000 in
theorem getBroadcastView_secrecy_witness :
    (run viewOpsA).deck ≠ (run viewOpsB).deck ∧
    (run viewOpsA).players.map Player.hole ≠ (run viewOpsB).players.map Player.hole ∧
    getBroadcastView (run viewOpsA) = getBroadcastView (run viewOpsB) :=
  ⟨by decide, by decide,
   getBroadcastView_secrecy (run viewOpsA) (run viewOpsB)
     (by decide) (by decide) (by decide) (by decide) (by decide) (by decide)
     (by decide) (by decide) (by decide) (by decide) (by decide) (by decide)
     (by decide) (by decide) (by decide) (by decide) (by decide) (by decide)⟩

/-! ### Association-list accounting lemmas for the payout split -/

theorem alGet_alSet {β : Type} (l : List (Nat × β)) (k x : Nat) (v d : β) :
    alGet (alSet l k v) x d = if x = k then v else alGet l x d := by
  induction l with
  | nil =>
    by_cases hx : x = k
    · subst hx
      simp [alSet, alGet]
    · have hkx : ¬ (k = x) := fun h => hx h.symm
      simp [alSet, alGet, hx, hkx]
  | cons e es ih =>
    by_cases hek : e.1 = k
    · by_cases hx : x = k
      · subst hx
        simp [alSet, alGet, hek]
      · have hkx : ¬ (k = x) := fun h => hx h.symm
        have hex : ¬ (e.1 = x) := by rw [hek]; exact hkx
        simp [alSet, alGet, hek, hx, hkx, hex]
    · by_cases hex : e.1 = x
      · have hxk : ¬ (x = k) := fun h => hek (hex.symm ▸ h ▸ rfl)
        simp [alSet, alGet, hek, hex, hxk]
      · simp [alSet, alGet, hek, hex, ih]

theorem alGet_alAdd (l : List (Nat × Int)) (k x : Nat) (v : Int) :
    alGet (alAdd l x v) k 0 = alGet l k 0 + if k = x then v else 0 := by
  by_cases h : k = x
  · subst h
    simp [alAdd, alGet_alSet]
  · simp [alAdd, alGet_alSet, h]

theorem alGet_foldl_alAdd (seats : List Nat) (v : Int) :
    ∀ (won : List (Nat × Int)) (x : Nat),
      alGet (seats.foldl (fun w seat => alAdd w seat v) won) x 0 =
        alGet won x 0 + v * (seats.count x) := by
  induction seats with
  | nil => intro won x; simp
  | cons a as ih =>
    intro won x
    simp only [List.foldl_cons, ih, alGet_alAdd]
    by_cases hx : x = a
    · subst hx
      simp [List.count_cons_self]
      ring
    · rw [List.count_cons_of_ne hx]
      simp [hx]

theorem alGet_remLoop (sorted : List Nat) (hnd : sorted.Nodup) :
    ∀ (r idx : Nat) (won : List (Nat × Int)) (x : Nat), idx + r ≤ sorted.length →
      alGet (remLoop sorted won r idx) x 0 =
        alGet won x 0 + (if x ∈ (sorted.drop idx).take r then 1 else 0) := by
  intro r
  induction r with
  | zero => intro idx won x h; simp [remLoop]
  | succ r ih =>
    intro idx won x h
    have hidx : idx < sorted.length := by omega
    have hlenpos : 0 < sorted.length := by omega
    have hmod : idx % sorted.length = idx := Nat.mod_eq_of_lt hidx
    have hgetD : sorted.getD (idx % sorted.length) 0 = sorted[idx] := by
      rw [hmod]
      exact List.getD_eq_getElem sorted 0 hidx
    have hdrop : sorted.drop idx = sorted[idx] :: sorted.drop (idx + 1) :=
      List.drop_eq_getElem_cons hidx
    have hnotin : sorted[idx] ∉ sorted.drop (idx + 1) := by
      have hsub : (sorted.drop idx).Nodup := (List.drop_sublist idx sorted).nodup hnd
      rw [hdrop] at hsub
      exact (List.nodup_cons.mp hsub).1
    simp only [remLoop, hgetD]
    rw [ih (idx + 1) (alAdd won sorted[idx] 1) x (by omega), alGet_alAdd]
    rw [hdrop, List.take_succ_cons]
    by_cases hx : x = sorted[idx]
    · have hnotake : sorted[idx] ∉ (sorted.drop (idx + 1)).take r := fun hmem =>
        hnotin (List.mem_of_mem_take hmem)
      simp [hx, hnotake]
    · simp [hx, List.mem_cons]

/-- C5: `resolveShowdown`'s pot split (`distributePot`) credits each of the
`k` tied winners `floor(A / k)` chips, and hands the remaining
`A − k·floor(A / k)` chips out one at a time in ascending seat order —
exactly the first `A mod k` seats of the ascending ordering get one extra
chip; seats not among the winners get nothing. -/
theorem distributePot_split (amount : Int) (seats : List Nat)
    (hnd : seats.Nodup) (hamt : 0 ≤ amount) (hne : seats ≠ []) :
    (∀ x ∈ seats,
      alGet (distributePot amount seats []) x 0 =
        Int.ediv amount (seats.length : Int) +
          (if x ∈ (sortAsc seats).take (amount.emod (seats.length : Int)).toNat
           then 1 else 0)) ∧
    (∀ x, x ∉ seats → alGet (distributePot amount seats []) x 0 = 0) := by
  have hk : 0 < seats.length := List.length_pos.mpr hne
  have hperm : List.Perm (sortAsc seats) seats := List.perm_insertionSort _ seats
  have hnds : List.Nodup (sortAsc seats) := (hperm.nodup_iff).mpr hnd
  have hlens : (sortAsc seats).length = seats.length := hperm.length_eq
  have hrem : amount - Int.ediv amount (seats.length : Int) * (seats.length : Int) =
      amount.emod (seats.length : Int) := by
    have hdd : Int.ediv amount (seats.length : Int) = amount / (seats.length : Int) := rfl
    have hmm2 : Int.emod amount (seats.length : Int) = amount % (seats.length : Int) := rfl
    rw [hdd, hmm2]
    linarith [Int.ediv_add_emod amount ((seats.length : Int))]
  have hremlt : (amount.emod (seats.length : Int)).toNat ≤ seats.length := by
    have h1 : amount.emod (seats.length : Int) < (seats.length : Int) :=
      Int.emod_lt_of_pos amount (by exact_mod_cast hk)
    omega
  constructor
  · intro x hx
    simp only [distributePot, hrem]
    rw [alGet_remLoop (sortAsc seats) hnds _ 0 _ x (by omega)]
    rw [alGet_foldl_alAdd]
    rw [List.count_eq_one_of_mem hnd hx]
    simp [alGet]
  · intro x hx
    simp only [distributePot, hrem]
    rw [alGet_remLoop (sortAsc seats) hnds _ 0 _ x (by omega)]
    rw [alGet_foldl_alAdd]
    have hc : seats.count x = 0 := List.count_eq_zero.mpr hx
    have hnm : x ∉ (sortAsc seats).take (amount.emod (seats.length : Int)).toNat := by
      intro hmem
      exact hx (hperm.mem_iff.mp (List.mem_of_mem_take hmem))
    simp [hc, hnm, alGet]

/-- C5 witness: a pot of 100 split among tied winners at seats 2, 5, 7 —
each receives 33 and the single extra chip goes to seat 2 (34 total). -/
theorem distributePot_split_witness :
    alGet (distributePot 100 [2, 5, 7] []) 2 0 = 34 ∧
    alGet (distributePot 100 [2, 5, 7] []) 5 0 = 33 ∧
    alGet (distributePot 100 [2, 5, 7] []) 7 0 = 33 ∧
    alGet (distributePot 100 [2, 5, 7] []) 0 0 = 0 := by
  have h := distributePot_split 100 [2, 5, 7] (by decide) (by decide) (by decide)
  refine ⟨?_, ?_, ?_, ?_⟩
  · have h2 := h.1 2 (by decide)
    simpa using h2
  · have h5 := h.1 5 (by decide)
    simpa using h5
  · have h7 := h.1 7 (by decide)
    simpa using h7
  · exact h.2 0 (by decide)

/-- The wheel cards A♣ 2♦ 3♥ 4♠ 5♣ of the spec's test vector. -/
def wheelCards : List Card := [⟨14, 0⟩, ⟨2, 1⟩, ⟨3, 2⟩, ⟨4, 3⟩, ⟨5, 0⟩]

/-- The thirteen card ranks 2..14. -/
def rankList : List Nat := (List.range 13).map (· + 2)

/-- `rank7` specialised to a flushless hand: only the rank multiset
matters. -/
def rank7NoFlushRanks (ranks : List Nat) : RankResult :=
  rank7Core none (sortDesc (dedupFirst ranks))
    (List.insertionSort groupLE ((dedupFirst ranks).map (fun r => (r, ranks.count r))))

theorem rank7_of_flushSuit_none (cards : List Card)
    (h : flushSuit cards = none) :
    rank7 cards = rank7NoFlushRanks (cards.map Card.rank) := by
  unfold rank7 rank7NoFlushRanks flushInfo ranksDescOf groupsOf rankCount
  rw [h]
  rfl

theorem suitCount_append (l1 l2 : List Card) (st : Nat) :
    suitCount (l1 ++ l2) st = suitCount l1 st + suitCount l2 st := by
  simp [suitCount, List.filter_append]

theorem suitCount_wheel_le (st : Nat) : suitCount wheelCards st ≤ 2 := by
  match st with
  | 0 => decide
  | 1 => decide
  | 2 => decide
  | 3 => decide
  | n + 4 =>
    have h0 : suitCount wheelCards (n + 4) = 0 := by
      simp [suitCount, wheelCards, List.filter_cons, Nat.ne_of_lt (by omega : 0 < n + 4),
        Nat.ne_of_lt (by omega : 1 < n + 4), Nat.ne_of_lt (by omega : 2 < n + 4),
        Nat.ne_of_lt (by omega : 3 < n + 4)]
    omega

theorem flushSuit_wheel_none (c1 c2 : Card) :
    flushSuit (wheelCards ++ [c1, c2]) = none := by
  unfold flushSuit
  have hfil : (dedupFirst ((wheelCards ++ [c1, c2]).map Card.suit)).filter
      (fun st => 5 ≤ suitCount (wheelCards ++ [c1, c2]) st) = [] := by
    rw [List.filter_eq_nil]
    intro st _
    have h1 := suitCount_wheel_le st
    have h2 : suitCount [c1, c2] st ≤ 2 := by
      have := List.length_filter_le (fun c => decide (c.suit = st)) [c1, c2]
      simpa [suitCount] using this
    have h3 := suitCount_append wheelCards [c1, c2] st
    simp only [decide_eq_true_eq]
    omega
  rw [hfil]
  rfl

theorem mem_rankList_of_mem_fullDeck (c : Card) (h : c ∈ fullDeck) :
    c.rank ∈ rankList := by
  unfold fullDeck at h
  simp only [List.mem_flatMap, List.mem_map, List.mem_range] at h
  obtain ⟨s, _, i, hi, rfl⟩ := h
  unfold rankList
  simp only [List.mem_map, List.mem_range]
  exact ⟨i, hi, rfl⟩

set_option maxHeartbeats 4000000 in
theorem rank7_wheel_ranks_aux :
    ∀ r1 ∈ rankList, ∀ r2 ∈ rankList, r1 ≠ 6 → r2 ≠ 6 →
      rank7NoFlushRanks [14, 2, 3, 4, 5, r1, r2] = ⟨4, [5]⟩ := by
  decide

/-- C6: wheel straight.  For the five wheel cards A♣ 2♦ 3♥ 4♠ 5♣ plus any
two further deck cards unrelated to the straight (rank ≠ 6 — a 6 would
extend the run) `rank7` returns category 4 (Straight) with tiebreak high
card 5, not 14: straight detection deduplicates the ranks, sorts them
descending, additionally treats the Ace as rank 1, and returns the highest
qualifying run-of-five's top rank.  (With these five suits no flush is
possible whatever the two extra cards are, and no higher category can
arise, so those conditions of the claim hold automatically.) -/
theorem rank7_wheel_straight :
    ∀ c1 ∈ fullDeck, ∀ c2 ∈ fullDeck, c1.rank ≠ 6 → c2.rank ≠ 6 →
      rank7 (wheelCards ++ [c1, c2]) = ⟨4, [5]⟩ := by
  intro c1 h1 c2 h2 hr1 hr2
  rw [rank7_of_flushSuit_none _ (flushSuit_wheel_none c1 c2)]
  exact rank7_wheel_ranks_aux c1.rank (mem_rankList_of_mem_fullDeck c1 h1)
    c2.rank (mem_rankList_of_mem_fullDeck c2 h2) hr1 hr2

/-- C6 witness: the wheel plus 9♦ and J♥ ranks as a 5-high straight. -/
theorem rank7_wheel_straight_witness :
    rank7 (wheelCards ++ [⟨9, 1⟩, ⟨11, 2⟩]) = ⟨4, [5]⟩ :=
  rank7_wheel_straight ⟨9, 1⟩ (by decide) ⟨11, 2⟩ (by decide)
    (by decide) (by decide)

/-! ### Round closure (C4) -/

/-- The round-closure predicate in logical form: every in-hand, non-all-in
player has acted this street and matched `currentBet`. -/
def EveryoneActedProp (s : EngineState) : Prop :=
  ∀ p ∈ s.players, p.inHand = true → p.isAllIn = false →
    p.hasActedThisRound = true ∧ s.currentBet ≤ s.streetBets.getD p.seat 0

instance (s : EngineState) : Decidable (EveryoneActedProp s) := by
  unfold EveryoneActedProp
  infer_instance

theorem everyoneActed_iff (s : EngineState) :
    everyoneActedOrAllIn s = true ↔ EveryoneActedProp s := by
  unfold everyoneActedOrAllIn EveryoneActedProp
  rw [List.all_eq_true]
  constructor
  · intro h p hp hin hall
    have h2 := h p hp
    have hc : (p.inHand && !p.isAllIn) = true := by rw [hin, hall]; rfl
    rw [if_pos hc] at h2
    have h3 := Bool.and_eq_true_iff.mp h2
    exact ⟨h3.1, of_decide_eq_true h3.2⟩
  · intro h p hp
    by_cases hc : (p.inHand && !p.isAllIn) = true
    · rw [if_pos hc]
      have hin : p.inHand = true := (Bool.and_eq_true_iff.mp hc).1
      have hall : p.isAllIn = false := by
        have h4 := (Bool.and_eq_true_iff.mp hc).2
        cases hA : p.isAllIn
        · rfl
        · rw [hA] at h4
          exact absurd h4 (by simp)
      have h2 := h p hp hin hall
      rw [h2.1, decide_eq_true h2.2]
      rfl
    · rw [if_neg hc]


/-- Seat `i` holds an in-hand, non-all-in player. -/
def seatActive (players : List Player) (i : Nat) : Prop :=
  ∃ p, players.get? i = some p ∧ p.inHand = true ∧ p.isAllIn = false

instance (players : List Player) (i : Nat) : Decidable (seatActive players i) := by
  unfold seatActive
  infer_instance

/-- `to` is the first in-hand, non-all-in seat after `f` in cyclic order
(skipping folded and all-in seats, wrapping around), or `f` itself when no
such seat exists. -/
def IsNextActiveSeat (players : List Player) (f t : Int) : Prop :=
  (∃ j : Nat, 1 ≤ j ∧ j ≤ players.length ∧
     t = (f + (j : Int)) % (players.length : Int) ∧
     seatActive players t.toNat ∧
     ∀ j' : Nat, 1 ≤ j' → j' < j →
       ¬ seatActive players (((f + (j' : Int)) % (players.length : Int)).toNat)) ∨
  (t = f ∧ ∀ j : Nat, 1 ≤ j → j ≤ players.length →
     ¬ seatActive players (((f + (j : Int)) % (players.length : Int)).toNat))

theorem nextSeatLoop_spec (players : List Player) (f : Int) :
    ∀ (k i : Nat), i + k = players.length + 1 → 1 ≤ i →
      (∀ j : Nat, 1 ≤ j → j < i →
        ¬ seatActive players (((f + (j : Int)) % (players.length : Int)).toNat)) →
      IsNextActiveSeat players f (nextSeatLoop players f k i) := by
  intro k
  induction k with
  | zero =>
    intro i hik hi hnone
    right
    refine ⟨rfl, fun j h1 h2 => hnone j h1 (by omega)⟩
  | succ k ih =>
    intro i hik hi hnone
    have hlen : 0 < players.length := by omega
    simp only [nextSeatLoop]
    rcases hget : players.get? ((f + (i : Int)) % (players.length : Int)).toNat with _ | p
    · rw [List.get?_eq_getElem?] at hget
      refine ih (i + 1) (by omega) (by omega) ?_
      intro j h1 h2
      rcases Nat.lt_or_ge j i with hj | hj
      · exact hnone j h1 hj
      · have hji : j = i := by omega
        subst hji
        intro ⟨q, hq, _, _⟩
        rw [List.get?_eq_getElem?, hget] at hq
        exact Option.noConfusion hq
    · cases hact : (p.inHand && !p.isAllIn)
      · dsimp only
        rw [hact, if_neg (by simp)]
        refine ih (i + 1) (by omega) (by omega) ?_
        intro j h1 h2
        rcases Nat.lt_or_ge j i with hj | hj
        · exact hnone j h1 hj
        · have hji : j = i := by omega
          subst hji
          intro ⟨q, hq, hqin, hqall⟩
          rw [hget] at hq
          cases hq
          rw [hqin, hqall] at hact
          simp at hact
      · left
        have hmodnn : 0 ≤ (f + (i : Int)) % (players.length : Int) :=
          Int.emod_nonneg _ (by omega)
        dsimp only
        rw [hact, if_pos rfl]
        refine ⟨i, hi, by omega, ?_, ?_, fun j h1 h2 => hnone j h1 h2⟩
        · rw [Int.toNat_of_nonneg hmodnn]
        · rw [Int.toNat_of_nonneg hmodnn]
          have hpin : p.inHand = true := by
            cases hin : p.inHand
            · rw [hin] at hact; simp at hact
            · rfl
          have hpall : p.isAllIn = false := by
            cases hall : p.isAllIn
            · rfl
            · rw [hall] at hact; simp at hact
          exact ⟨p, hget, hpin, hpall⟩

theorem nextSeat_spec (s : EngineState) (f : Int) :
    IsNextActiveSeat s.players f (nextSeat s f) := by
  unfold nextSeat
  exact nextSeatLoop_spec s.players f s.players.length 1 (by omega) (by omega)
    (fun j h1 h2 => absurd h1 (by omega))

/-- `commitChips` never touches the stage. -/
theorem commitChips_stage (s : EngineState) (seat : Nat) (a : Int) :
    (commitChips s seat a).2.stage = s.stage := by
  unfold commitChips
  rcases s.players.get? seat with _ | p
  · rfl
  · dsimp only
    split
    · rfl
    · rfl

/-- `commitChips` alters only the stack and all-in flag of the paying seat:
every player's identity fields, seat, hole, in-hand and acted flags are
preserved positionally. -/
theorem commitChips_players_fields (s : EngineState) (seat : Nat) (a : Int)
    (ti : Nat) (q : Player)
    (h : (commitChips s seat a).2.players.get? ti = some q) :
    ∃ p0, s.players.get? ti = some p0 ∧ q.seat = p0.seat ∧
      q.inHand = p0.inHand ∧ q.hasActedThisRound = p0.hasActedThisRound := by
  unfold commitChips at h
  rcases hp : s.players.get? seat with _ | p
  · rw [hp] at h
    exact ⟨q, h, rfl, rfl, rfl⟩
  · rw [hp] at h
    dsimp only at h
    split at h
    · exact ⟨q, h, rfl, rfl, rfl⟩
    · dsimp only at h
      by_cases hts : ti = seat
      · subst hts
        rw [List.get?_eq_getElem?] at h hp ⊢
        have hlt : ti < s.players.length := by
          rcases Nat.lt_or_ge ti s.players.length with h1 | h1
          · exact h1
          · rw [List.getElem?_eq_none h1] at hp
            exact absurd hp (by simp)
        rw [List.getElem?_set_self hlt] at h
        cases h
        exact ⟨p, hp, rfl, rfl, rfl⟩
      · rw [List.get?_eq_getElem?] at h hp ⊢
        rw [List.getElem?_set_ne (fun hh => hts hh.symm)] at h
        exact ⟨q, h, rfl, rfl, rfl⟩

/-- A non-terminal action application leaves the stage unchanged. -/
theorem applyKind_nonterminal_stage (s : EngineState) (actor : Player) (ti : Nat)
    (kind : ActionKind) (amount : Option ℚ) (s1 : EngineState)
    (h : applyKind s actor ti kind amount = some (s1, false)) :
    s1.stage = s.stage := by
  cases kind <;> simp only [applyKind] at h
  case fold =>
    split at h
    · split at h
      · simp only [Option.some.injEq, Prod.mk.injEq] at h
        rw [← h.1]
        simp [logEvent]
      · simp only [Option.some.injEq, Prod.mk.injEq] at h
        exact absurd h.2 (by simp)
    · simp only [Option.some.injEq, Prod.mk.injEq] at h
      rw [← h.1]
      simp [logEvent]
  case check =>
    split at h
    · exact Option.noConfusion h
    · simp only [Option.some.injEq, Prod.mk.injEq] at h
      rw [← h.1]
      simp [logEvent]
  case call =>
    split at h
    · exact Option.noConfusion h
    · split at h
      · exact Option.noConfusion h
      · simp only [Option.some.injEq, Prod.mk.injEq] at h
        rw [← h.1]
        simp [logEvent, commitChips_stage]
  case bet =>
    split at h
    · exact Option.noConfusion h
    · split at h
      · exact Option.noConfusion h
      · split at h
        · exact Option.noConfusion h
        · simp only [Option.some.injEq, Prod.mk.injEq] at h
          rw [← h.1]
          simp [logEvent, commitChips_stage]
  case raise =>
    split at h
    · exact Option.noConfusion h
    · split at h
      · exact Option.noConfusion h
      · simp only [Option.some.injEq, Prod.mk.injEq] at h
        rw [← h.1]
        split
        · simp [logEvent, commitChips_stage]
        · simp [logEvent, commitChips_stage]

/-- `resolveShowdown` leaves the stage at showdown when entered there. -/
theorem resolveShowdown_stage (s : EngineState) (h : s.stage = Stage.showdown) :
    (resolveShowdown s).stage = Stage.showdown := by
  simp only [resolveShowdown]
  split
  · split
    · simpa [resetReveals] using h
    · simp [logEvent]
  · simp [logEvent]

/-- During a betting stage, `advanceStage` always changes the stage
(preflop to flop to turn to river to showdown). -/
theorem advanceStage_changes_stage (s : EngineState)
    (h : isBettingStage s.stage = true) :
    (advanceStage s).stage ≠ s.stage := by
  cases hst : s.stage
  · rw [hst] at h; exact absurd h (by simp [isBettingStage])
  · simp [advanceStage, hst, logEvent]
  · simp [advanceStage, hst, logEvent]
  · simp [advanceStage, hst, logEvent]
  · simp only [advanceStage, hst]
    rw [resolveShowdown_stage _ rfl]
    simp
  · rw [hst] at h; exact absurd h (by simp [isBettingStage])

/-- After the bet branch's flag pass — reset every other in-hand,
non-all-in player, then mark the actor (positionally at `ti`, whose seat
field is the actor's seat) as having acted — every other in-hand,
non-all-in player's acted flag is false. -/
theorem bet_reset_flags (plist : List Player) (actorSeat : Nat) (ti : Nat)
    (hti : ∀ q, plist.get? ti = some q → q.seat = actorSeat) :
    ∀ p ∈ listModify
        (plist.map (fun q =>
          if q.seat != actorSeat && q.inHand && !q.isAllIn then
            ({ q with hasActedThisRound := false } : Player)
          else q)) ti
        (fun q => { q with hasActedThisRound := true }),
      p.seat ≠ actorSeat → p.inHand = true → p.isAllIn = false →
      p.hasActedThisRound = false := by
  intro p hp hseat hin hall
  set f := fun q : Player =>
      if q.seat != actorSeat && q.inHand && !q.isAllIn then
        ({ q with hasActedThisRound := false } : Player) else q with hf
  have hfseat : ∀ q : Player, (f q).seat = q.seat := by
    intro q
    rw [hf]
    dsimp only
    split <;> rfl
  have hmapped : ∀ q : Player, p = f q → p.hasActedThisRound = false := by
    intro q hq
    rw [hf] at hq
    dsimp only at hq
    by_cases hcond : (q.seat != actorSeat && q.inHand && !q.isAllIn) = true
    · rw [if_pos hcond] at hq
      rw [hq]
    · rw [if_neg hcond] at hq
      subst hq
      exfalso
      apply hcond
      have h1 : (p.seat != actorSeat) = true := by
        simp [hseat]
      rw [h1, hin, hall]
      rfl
  unfold listModify at hp
  rcases hget : (plist.map f).get? ti with _ | a
  · rw [hget] at hp
    obtain ⟨q, _, hfq⟩ := List.mem_map.mp hp
    exact hmapped q hfq.symm
  · rw [hget] at hp
    rcases List.mem_or_eq_of_mem_set hp with hmem | heq
    · obtain ⟨q, _, hfq⟩ := List.mem_map.mp hmem
      exact hmapped q hfq.symm
    · exfalso
      rw [List.get?_eq_getElem?, List.getElem?_map] at hget
      rcases hq0 : plist[ti]? with _ | q0
      · rw [hq0] at hget
        exact Option.noConfusion hget
      · rw [hq0] at hget
        simp only [Option.map_some'] at hget
        have hseat0 : q0.seat = actorSeat := hti q0 (by rw [List.get?_eq_getElem?]; exact hq0)
        have haseat : a.seat = actorSeat := by
          rw [← (Option.some.inj hget), hfseat, hseat0]
        apply hseat
        rw [heq]
        exact haseat

/-- A successful bet resets every other in-hand, non-all-in player's
acted flag (the actor is identified both positionally at `ti` and by seat
field through `commitChips`). -/
theorem applyKind_bet_flags (s : EngineState) (actor : Player) (ti : Nat)
    (amount : Option ℚ) (s1 : EngineState)
    (hactor : s.players.get? ti = some actor)
    (h : applyKind s actor ti ActionKind.bet amount = some (s1, false)) :
    ∀ p ∈ s1.players, p.seat ≠ actor.seat → p.inHand = true → p.isAllIn = false →
      p.hasActedThisRound = false := by
  simp only [applyKind] at h
  split at h
  · exact Option.noConfusion h
  · split at h
    · exact Option.noConfusion h
    · split at h
      · exact Option.noConfusion h
      · simp only [Option.some.injEq, Prod.mk.injEq] at h
        rw [← h.1]
        intro p hp hseat hin hall
        refine bet_reset_flags
          ((commitChips s actor.seat
            (max 0 (max s.bigBlind ⌊amount.getD 0⌋ - s.streetBets.getD actor.seat 0))).2.players)
          actor.seat ti ?_ p ?_ hseat hin hall
        · intro q hq
          obtain ⟨p0, hp0, hqs, _, _⟩ := commitChips_players_fields s actor.seat _ ti q hq
          rw [hactor] at hp0
          rw [hqs, Option.some.inj hp0]
        · simpa [logEvent] using hp

/-- C4: round closure.  For any successful non-terminal action (one that
does not end the hand by the fold-to-one shortcut), letting `s1` be the
state right after the action is applied: the stage advances if and only if
every in-hand, non-all-in player has acted this street and matched
`currentBet`; otherwise the stage is unchanged and the seat-to-act moves to
the next in-hand, non-all-in seat, wrapping around and skipping folded and
all-in seats.  Moreover a legal bet leaves every other in-hand, non-all-in
player's `hasActedThisRound` flag false. -/
theorem round_closure (s : EngineState) (id : String) (kind : ActionKind)
    (amount : Option ℚ) (actor : Player) (s1 s' : EngineState)
    (hstage : isBettingStage s.stage = true)
    (hts : 0 ≤ s.turnSeat)
    (hactor : s.players.get? s.turnSeat.toNat = some actor)
    (hid : actor.id = id) (hin : actor.inHand = true) (hallin : actor.isAllIn = false)
    (happ : applyKind s actor s.turnSeat.toNat kind amount = some (s1, false))
    (hres : playerAction s id kind amount = some s') :
    (EveryoneActedProp s1 → s' = advanceStage s1 ∧ s'.stage ≠ s.stage) ∧
    (¬ EveryoneActedProp s1 →
       s' = { s1 with turnSeat := nextSeat s1 s1.turnSeat } ∧ s'.stage = s.stage ∧
       IsNextActiveSeat s1.players s1.turnSeat s'.turnSeat) ∧
    (kind = ActionKind.bet → ∀ p ∈ s1.players, p.seat ≠ actor.seat →
       p.inHand = true → p.isAllIn = false → p.hasActedThisRound = false) := by
  have hs1stage : s1.stage = s.stage :=
    applyKind_nonterminal_stage s actor s.turnSeat.toNat kind amount s1 happ
  have hs1betting : isBettingStage s1.stage = true := by rw [hs1stage]; exact hstage
  have hactor2 : s.players[s.turnSeat.toNat]? = some actor := by
    simpa [← List.get?_eq_getElem?] using hactor
  have hclose : s' = closeRound s1 := by
    have hpa : playerAction s id kind amount = some (closeRound s1) := by
      simp [playerAction, hstage, hactor2, hid, hin, hallin, not_lt.mpr hts, happ]
    rw [hpa] at hres
    exact (Option.some.inj hres).symm
  refine ⟨?_, ?_, ?_⟩
  · intro hyes
    have hb : everyoneActedOrAllIn s1 = true := (everyoneActed_iff s1).mpr hyes
    have hcr : closeRound s1 = advanceStage s1 := by
      unfold closeRound
      rw [if_pos hs1betting, if_pos hb]
    refine ⟨hclose.trans hcr, ?_⟩
    rw [hclose, hcr, ← hs1stage]
    exact advanceStage_changes_stage s1 hs1betting
  · intro hno
    have hb : everyoneActedOrAllIn s1 = false := by
      cases hbb : everyoneActedOrAllIn s1
      · rfl
      · exact absurd ((everyoneActed_iff s1).mp hbb) hno
    have hcr : closeRound s1 = { s1 with turnSeat := nextSeat s1 s1.turnSeat } := by
      unfold closeRound
      rw [if_pos hs1betting, if_neg (by simp [hb])]
    refine ⟨hclose.trans hcr, ?_, ?_⟩
    · rw [hclose, hcr]
      exact hs1stage
    · rw [hclose, hcr]
      simpa using nextSeat_spec s1 s1.turnSeat
  · intro hbet
    subst hbet
    exact applyKind_bet_flags s actor s.turnSeat.toNat amount s1 hactor happ

/-- C4 witness scenario: three players, preflop completed by call/call/check,
now on the flop with seat 2 to act, who bets 5. -/
def c4Ops : List Op :=
  [.addPlayer "a" "A" 50 true, .addPlayer "b" "B" 50 false,
   .addPlayer "c" "C" 50 false, .startHand fullDeck,
   .playerAction "b" .call none, .playerAction "c" .call none,
   .playerAction "a" .check none]

def c4Actor : Player := ⟨"c", "C", 48, 2, some [⟨10, 3⟩, ⟨9, 3⟩], true, false, false, false⟩

def c4S1 : EngineState :=
  ((applyKind (run c4Ops) c4Actor 2 ActionKind.bet (some 5)).getD (initState "", true)).1

def c4Sres : EngineState :=
  (playerAction (run c4Ops) "c" ActionKind.bet (some 5)).getD (initState "")

set_option maxHeartbeats 2000000 in
theorem round_closure_witness :
    (EveryoneActedProp c4S1 → c4Sres = advanceStage c4S1 ∧ c4Sres.stage ≠ (run c4Ops).stage) ∧
    (¬ EveryoneActedProp c4S1 →
       c4Sres = { c4S1 with turnSeat := nextSeat c4S1 c4S1.turnSeat } ∧
       c4Sres.stage = (run c4Ops).stage ∧
       IsNextActiveSeat c4S1.players c4S1.turnSeat c4Sres.turnSeat) ∧
    (ActionKind.bet = ActionKind.bet → ∀ p ∈ c4S1.players, p.seat ≠ c4Actor.seat →
       p.inHand = true → p.isAllIn = false → p.hasActedThisRound = false) :=
  round_closure (run c4Ops) "c" ActionKind.bet (some 5) c4Actor c4S1 c4Sres
    (by decide) (by decide) (by decide) (by decide) (by decide) (by decide)
    (by decide) (by decide)

/-! ### Evaluator order-invariance (C7)

Every intermediate of `rank7` is determined by the card multiset: the
distinct-rank list sorted by a total order, the `(rank, count)` groups
sorted by a total order, and the flush suit, which is unique in a hand of
at most nine cards. -/

theorem mem_dedupFirstAux {α : Type} [DecidableEq α] (seen l : List α) (x : α) :
    x ∈ dedupFirstAux seen l ↔ x ∈ l ∧ x ∉ seen := by
  induction l generalizing seen with
  | nil => simp [dedupFirstAux]
  | cons a as ih =>
    by_cases ha : a ∈ seen
    · rw [dedupFirstAux, if_pos ha, ih]
      constructor
      · rintro ⟨h1, h2⟩
        exact ⟨List.mem_cons_of_mem a h1, h2⟩
      · rintro ⟨h1, h2⟩
        rcases List.mem_cons.mp h1 with h3 | h3
        · subst h3
          exact absurd ha h2
        · exact ⟨h3, h2⟩
    · rw [dedupFirstAux, if_neg ha]
      constructor
      · intro h1
        rcases List.mem_cons.mp h1 with h3 | h3
        · subst h3
          exact ⟨List.mem_cons_self x as, ha⟩
        · have h4 := (ih (seen ++ [a])).mp h3
          refine ⟨List.mem_cons_of_mem a h4.1, fun hx => h4.2 (by simp [hx])⟩
      · rintro ⟨h1, h2⟩
        rcases List.mem_cons.mp h1 with h3 | h3
        · subst h3
          exact List.mem_cons_self x _
        · by_cases hxa : x = a
          · subst hxa
            exact List.mem_cons_self x _
          · refine List.mem_cons_of_mem a ((ih (seen ++ [a])).mpr ⟨h3, ?_⟩)
            simp [h2, hxa]

theorem nodup_dedupFirstAux {α : Type} [DecidableEq α] (seen l : List α) :
    (dedupFirstAux seen l).Nodup := by
  induction l generalizing seen with
  | nil => simp [dedupFirstAux]
  | cons a as ih =>
    by_cases ha : a ∈ seen
    · rw [dedupFirstAux, if_pos ha]
      exact ih seen
    · rw [dedupFirstAux, if_neg ha]
      refine List.nodup_cons.mpr ⟨fun hmem => ?_, ih _⟩
      have h4 := (mem_dedupFirstAux _ _ _).mp hmem
      exact h4.2 (by simp)

theorem mem_dedupFirst {α : Type} [DecidableEq α] (l : List α) (x : α) :
    x ∈ dedupFirst l ↔ x ∈ l := by
  rw [dedupFirst, mem_dedupFirstAux]
  simp

theorem nodup_dedupFirst {α : Type} [DecidableEq α] (l : List α) :
    (dedupFirst l).Nodup :=
  nodup_dedupFirstAux [] l

theorem dedupFirst_perm {α : Type} [DecidableEq α] {l₁ l₂ : List α}
    (h : l₁.Perm l₂) : (dedupFirst l₁).Perm (dedupFirst l₂) :=
  (List.perm_ext_iff_of_nodup (nodup_dedupFirst _) (nodup_dedupFirst _)).mpr
    (fun a => by rw [mem_dedupFirst, mem_dedupFirst]; exact h.mem_iff)

instance : IsTotal Nat (· ≥ ·) := ⟨fun a b => le_total b a⟩

instance : IsTrans Nat (· ≥ ·) := ⟨fun _ _ _ h1 h2 => le_trans h2 h1⟩

instance : IsAntisymm Nat (· ≥ ·) := ⟨fun _ _ h1 h2 => le_antisymm h2 h1⟩

theorem sortDesc_eq_of_perm {l₁ l₂ : List Nat} (h : l₁.Perm l₂) :
    sortDesc l₁ = sortDesc l₂ :=
  List.eq_of_perm_of_sorted
    (((List.perm_insertionSort _ l₁).trans h).trans (List.perm_insertionSort _ l₂).symm)
    (List.sorted_insertionSort _ l₁) (List.sorted_insertionSort _ l₂)

instance : IsTotal (Nat × Nat) groupLE := ⟨fun a b => by unfold groupLE; omega⟩

instance : IsTrans (Nat × Nat) groupLE := ⟨fun a b c h1 h2 => by
  unfold groupLE at *
  omega⟩

instance : IsAntisymm (Nat × Nat) groupLE := ⟨fun a b h1 h2 => by
  unfold groupLE at *
  exact Prod.ext_iff.mpr (by omega)⟩

theorem ranksDescOf_perm {c₁ c₂ : List Card} (h : c₁.Perm c₂) :
    ranksDescOf c₁ = ranksDescOf c₂ :=
  sortDesc_eq_of_perm (dedupFirst_perm (h.map Card.rank))

theorem rankCount_perm {c₁ c₂ : List Card} (h : c₁.Perm c₂) (r : Nat) :
    rankCount c₁ r = rankCount c₂ r :=
  (h.map Card.rank).count_eq r

theorem groupsOf_perm {c₁ c₂ : List Card} (h : c₁.Perm c₂) :
    groupsOf c₁ = groupsOf c₂ := by
  unfold groupsOf
  have h2 : (dedupFirst (c₂.map Card.rank)).map (fun r => (r, rankCount c₁ r)) =
      (dedupFirst (c₂.map Card.rank)).map (fun r => (r, rankCount c₂ r)) :=
    List.map_congr_left (fun a _ => by rw [rankCount_perm h])
  have hperm : ((dedupFirst (c₁.map Card.rank)).map (fun r => (r, rankCount c₁ r))).Perm
      ((dedupFirst (c₂.map Card.rank)).map (fun r => (r, rankCount c₂ r))) := by
    rw [← h2]
    exact (dedupFirst_perm (h.map Card.rank)).map _
  exact List.eq_of_perm_of_sorted
    (((List.perm_insertionSort _ _).trans hperm).trans (List.perm_insertionSort _ _).symm)
    (List.sorted_insertionSort _ _) (List.sorted_insertionSort _ _)

theorem suitCount_perm {c₁ c₂ : List Card} (h : c₁.Perm c₂) (st : Nat) :
    suitCount c₁ st = suitCount c₂ st :=
  (List.Perm.filter _ h).length_eq

/-- Two different suits cannot both exceed the hand size. -/
theorem suitCount_add_le (cards : List Card) (a b : Nat) (hab : a ≠ b) :
    suitCount cards a + suitCount cards b ≤ cards.length := by
  induction cards with
  | nil => simp [suitCount]
  | cons c cs ih =>
    unfold suitCount at ih ⊢
    by_cases hca : c.suit = a
    · have hcb : ¬ (c.suit = b) := by rw [hca]; exact hab
      rw [List.filter_cons, List.filter_cons, if_pos (by simp [hca]), if_neg (by simp [hcb])]
      simp only [List.length_cons]
      omega
    · rw [List.filter_cons, List.filter_cons, if_neg (by simp [hca])]
      by_cases hcb : c.suit = b
      · rw [if_pos (by simp [hcb])]
        simp only [List.length_cons]
        omega
      · rw [if_neg (by simp [hcb])]
        simp only [List.length_cons]
        omega

/-- In a hand of at most nine cards the flush suit is exactly the (unique)
suit with at least five cards. -/
theorem flushSuit_eq_some_iff (cards : List Card) (h9 : cards.length ≤ 9) (st : Nat) :
    flushSuit cards = some st ↔ 5 ≤ suitCount cards st := by
  unfold flushSuit
  constructor
  · intro h
    have hmem := List.mem_of_mem_getLast? (by rw [h]; rfl :
      st ∈ ((dedupFirst (cards.map Card.suit)).filter
        (fun s2 => 5 ≤ suitCount cards s2)).getLast?)
    exact of_decide_eq_true (List.mem_filter.mp hmem).2
  · intro h5
    have hstmem : st ∈ cards.map Card.suit := by
      have hpos : 0 < (cards.filter (fun c => c.suit = st)).length := by
        unfold suitCount at h5
        omega
      obtain ⟨c, hc⟩ := List.exists_mem_of_length_pos hpos
      have hc2 := List.mem_filter.mp hc
      exact List.mem_map.mpr ⟨c, hc2.1, of_decide_eq_true hc2.2⟩
    have hFmem : st ∈ (dedupFirst (cards.map Card.suit)).filter
        (fun s2 => 5 ≤ suitCount cards s2) :=
      List.mem_filter.mpr ⟨(mem_dedupFirst _ _).mpr hstmem, decide_eq_true h5⟩
    have hall : ∀ y ∈ (dedupFirst (cards.map Card.suit)).filter
        (fun s2 => 5 ≤ suitCount cards s2), y = st := by
      intro y hy
      have hy5 : 5 ≤ suitCount cards y := of_decide_eq_true (List.mem_filter.mp hy).2
      by_contra hne
      have hle := suitCount_add_le cards y st hne
      omega
    have hnd : ((dedupFirst (cards.map Card.suit)).filter
        (fun s2 => 5 ≤ suitCount cards s2)).Nodup :=
      List.Nodup.filter _ (nodup_dedupFirst _)
    rcases hF : (dedupFirst (cards.map Card.suit)).filter
        (fun s2 => 5 ≤ suitCount cards s2) with _ | ⟨x, xs⟩
    · rw [hF] at hFmem
      exact absurd hFmem (by simp)
    · rcases hxs : xs with _ | ⟨x2, xs2⟩
      · have hx := hall x (by rw [hF]; exact List.mem_cons_self _ _)
        rw [hx]
        rfl
      · exfalso
        rw [hxs] at hF
        have hx := hall x (by rw [hF]; exact List.mem_cons_self _ _)
        have hx2 := hall x2 (by rw [hF]; exact List.mem_cons_of_mem _ (List.mem_cons_self _ _))
        rw [hF] at hnd
        have hnotin := (List.nodup_cons.mp hnd).1
        apply hnotin
        rw [hx, hx2]
        exact List.mem_cons_self _ _

theorem flushSuit_perm {c₁ c₂ : List Card} (h : c₁.Perm c₂) (h9 : c₁.length ≤ 9) :
    flushSuit c₁ = flushSuit c₂ := by
  have h9' : c₂.length ≤ 9 := by rw [← h.length_eq]; exact h9
  rcases hfs : flushSuit c₁ with _ | st
  · rcases hfs2 : flushSuit c₂ with _ | st
    · rfl
    · exfalso
      have h5 := (flushSuit_eq_some_iff c₂ h9' st).mp hfs2
      have h5' : 5 ≤ suitCount c₁ st := by rw [suitCount_perm h]; exact h5
      rw [(flushSuit_eq_some_iff c₁ h9 st).mpr h5'] at hfs
      exact Option.noConfusion hfs
  · have h5 := (flushSuit_eq_some_iff c₁ h9 st).mp hfs
    have h5' : 5 ≤ suitCount c₂ st := by rw [← suitCount_perm h]; exact h5
    exact ((flushSuit_eq_some_iff c₂ h9' st).mpr h5').symm

theorem flushRanks_perm {c₁ c₂ : List Card} (h : c₁.Perm c₂) (st : Nat) :
    flushRanks c₁ st = flushRanks c₂ st :=
  sortDesc_eq_of_perm ((List.Perm.filter _ h).map Card.rank)

theorem flushInfo_perm {c₁ c₂ : List Card} (h : c₁.Perm c₂) (h9 : c₁.length ≤ 9) :
    flushInfo c₁ = flushInfo c₂ := by
  unfold flushInfo
  rw [flushSuit_perm h h9]
  rcases flushSuit c₂ with _ | st
  · rfl
  · simp only [Option.map_some']
    rw [flushRanks_perm h]

/-- C7: `rank7` of a 7-card hand is invariant under any permutation of the
input list — it is a pure function of the card multiset. -/
theorem rank7_order_invariant (c₁ c₂ : List Card) (hperm : c₁.Perm c₂)
    (h7 : c₁.length = 7) : rank7 c₁ = rank7 c₂ := by
  unfold rank7
  rw [flushInfo_perm hperm (by omega), ranksDescOf_perm hperm, groupsOf_perm hperm]

/-- C7 witness: a concrete 7-card hand and a reordering of it rank
identically. -/
theorem rank7_order_invariant_witness :
    rank7 [⟨14, 0⟩, ⟨2, 1⟩, ⟨3, 2⟩, ⟨4, 3⟩, ⟨5, 0⟩, ⟨9, 1⟩, ⟨11, 2⟩] =
    rank7 [⟨11, 2⟩, ⟨9, 1⟩, ⟨5, 0⟩, ⟨4, 3⟩, ⟨3, 2⟩, ⟨2, 1⟩, ⟨14, 0⟩] :=
  rank7_order_invariant _ _ (by decide) (by decide)

/-! ### Chip conservation (C1)

The conserved quantity is `Σ stacks + pot + lost + cashout − buyins`, where
the three ghost fields account for chips that left play: `cashout` for
stacks departing with `removePlayer`, `lost` for pot chips the engine
silently discards (a `startHand` called mid-hand throws away the live pot,
and a showdown side-pot layer none of whose eligible seats holds a ranked
hand is skipped, crediting nobody). -/

def stackSum (players : List Player) : Int := (players.map Player.stack).sum

theorem stackSum_set (players : List Player) (i : Nat) (p q : Player)
    (h : players.get? i = some p) :
    stackSum (players.set i q) = stackSum players - p.stack + q.stack := by
  induction players generalizing i with
  | nil => exact Option.noConfusion h
  | cons a as ih =>
    cases i with
    | zero =>
      cases Option.some.inj h
      simp only [List.set, stackSum, List.map_cons, List.sum_cons]
      ring
    | succ n =>
      have h2 := ih n h
      simp only [List.set, stackSum, List.map_cons, List.sum_cons] at h2 ⊢
      omega

theorem stackSum_map_preserve (players : List Player) (f : Player → Player)
    (hf : ∀ p, (f p).stack = p.stack) :
    stackSum (players.map f) = stackSum players := by
  induction players with
  | nil => rfl
  | cons a as ih =>
    simp only [stackSum, List.map_cons, List.sum_cons] at ih ⊢
    rw [hf a, ih]

theorem stackSum_listModify_add (players : List Player) (i : Nat) (amt : Int) :
    stackSum (listModify players i (fun q => { q with stack := q.stack + amt })) =
      stackSum players + (if (players.get? i).isSome then amt else 0) := by
  unfold listModify
  rcases h : players.get? i with _ | p
  · simp
  · rw [stackSum_set players i p _ h]
    simp
    ring

theorem stackSum_listModify_preserve (players : List Player) (i : Nat)
    (f : Player → Player) (hf : ∀ p, (f p).stack = p.stack) :
    stackSum (listModify players i f) = stackSum players := by
  unfold listModify
  rcases h : players.get? i with _ | p
  · rfl
  · rw [stackSum_set players i p _ h, hf]
    ring

theorem stackSum_listModify_acted (players : List Player) (i : Nat) :
    stackSum (listModify players i
      (fun p => ({ p with hasActedThisRound := true } : Player))) =
      stackSum players :=
  stackSum_listModify_preserve players i _ (fun _ => rfl)

theorem stackSum_listModify_folded (players : List Player) (i : Nat) :
    stackSum (listModify players i
      (fun p => ({ p with inHand := false, hasActedThisRound := true } : Player))) =
      stackSum players :=
  stackSum_listModify_preserve players i _ (fun _ => rfl)

theorem stackSum_map_reset (players : List Player) (aSeat : Nat) :
    stackSum (players.map (fun p =>
      if p.seat != aSeat && p.inHand && !p.isAllIn then
        ({ p with hasActedThisRound := false } : Player)
      else p)) = stackSum players := by
  refine stackSum_map_preserve _ _ (fun p => ?_)
  dsimp only
  split <;> rfl

theorem stackSum_eraseIdx (players : List Player) (i : Nat) (p : Player)
    (h : players.get? i = some p) :
    stackSum (players.eraseIdx i) = stackSum players - p.stack := by
  induction players generalizing i with
  | nil => exact Option.noConfusion h
  | cons a as ih =>
    cases i with
    | zero =>
      cases Option.some.inj h
      simp only [List.eraseIdx, stackSum, List.map_cons, List.sum_cons]
      ring
    | succ n =>
      have h2 := ih n h
      simp only [List.eraseIdx, stackSum, List.map_cons, List.sum_cons] at h2 ⊢
      omega

theorem stackSum_append (l₁ l₂ : List Player) :
    stackSum (l₁ ++ l₂) = stackSum l₁ + stackSum l₂ := by
  simp [stackSum]

/-- `commitChips` moves the paid amount from the stack to the pot and
touches nothing else relevant to conservation. -/
theorem commitChips_fields (s : EngineState) (i : Nat) (a : Int) :
    (commitChips s i a).2.stage = s.stage ∧
    (commitChips s i a).2.pots = s.pots ∧
    (commitChips s i a).2.lost = s.lost ∧
    (commitChips s i a).2.cashout = s.cashout ∧
    (commitChips s i a).2.buyins = s.buyins ∧
    stackSum (commitChips s i a).2.players + (commitChips s i a).2.pot =
      stackSum s.players + s.pot := by
  unfold commitChips
  rcases h : s.players.get? i with _ | p
  · exact ⟨rfl, rfl, rfl, rfl, rfl, rfl⟩
  · dsimp only
    split
    · exact ⟨rfl, rfl, rfl, rfl, rfl, rfl⟩
    · refine ⟨rfl, rfl, rfl, rfl, rfl, ?_⟩
      dsimp only
      rw [stackSum_set s.players i p _ h]
      dsimp only
      ring

/-- The winnings pass credits exactly its reported total to the stacks. -/
theorem applyWinnings_sum (won : List (Nat × Int)) :
    ∀ (players : List Player) (t0 : Int),
      stackSum (won.foldl (fun acc e =>
        match acc.1.get? e.1 with
        | some p => (acc.1.set e.1 { p with stack := p.stack + e.2 }, acc.2 + e.2)
        | none => acc) (players, t0)).1 +
      t0 =
      stackSum players +
      (won.foldl (fun acc e =>
        match acc.1.get? e.1 with
        | some p => (acc.1.set e.1 { p with stack := p.stack + e.2 }, acc.2 + e.2)
        | none => acc) (players, t0)).2 := by
  induction won with
  | nil => intro players t0; simp
  | cons e es ih =>
    intro players t0
    simp only [List.foldl_cons]
    rcases h : players.get? e.1 with _ | p
    · exact ih players t0
    · have h2 := ih (players.set e.1 { p with stack := p.stack + e.2 }) (t0 + e.2)
      rw [stackSum_set players e.1 p _ h] at h2
      simp only [] at h2 ⊢
      omega

theorem applyWinnings_sum' (players : List Player) (won : List (Nat × Int)) :
    stackSum (applyWinnings players won).1 =
      stackSum players + (applyWinnings players won).2 := by
  have h := applyWinnings_sum won players 0
  unfold applyWinnings
  omega

/-- Dealing hole cards never touches the stacks. -/
theorem dealHoles_stackSum (players : List Player) :
    ∀ d : List Card, stackSum (dealHoles players d).1 = stackSum players := by
  induction players with
  | nil => intro d; rfl
  | cons p ps ih =>
    intro d
    unfold dealHoles
    split
    · simp only [stackSum, List.map_cons, List.sum_cons]
      have h2 := ih (popCard (popCard d).2).2
      simp only [stackSum] at h2
      rw [h2]
    · simp only [stackSum, List.map_cons, List.sum_cons]
      have h2 := ih d
      simp only [stackSum] at h2
      rw [h2]

/-- A seat found by `findIdx` over a positive-length filter is a real seat. -/
theorem findIdx_get?_isSome (l : List Player) (pred : Player → Bool)
    (h : 0 < (l.filter pred).length) : (l.get? (l.findIdx pred)).isSome := by
  obtain ⟨x, hx⟩ := List.exists_mem_of_length_pos h
  have hex : ∃ x ∈ l, pred x = true :=
    ⟨x, (List.mem_filter.mp hx).1, (List.mem_filter.mp hx).2⟩
  have hlt := List.findIdx_lt_length_of_exists hex
  rw [List.get?_eq_get hlt]
  rfl

theorem stackSum_enumFrom_map (g : Nat × Player → Player)
    (hg : ∀ e, (g e).stack = e.2.stack) :
    ∀ (l : List Player) (n : Nat), stackSum ((l.enumFrom n).map g) = stackSum l := by
  intro l
  induction l with
  | nil => intro n; rfl
  | cons a as ih =>
    intro n
    simp only [List.enumFrom_cons, List.map_cons, stackSum, List.sum_cons]
    have h2 := ih (n + 1)
    simp only [stackSum] at h2
    rw [hg, h2]

/-- The conservation invariant: stacks plus the live pot plus the ghost
accounts balance the total buy-ins; the stored side-pot list is empty
during betting stages; the pot is empty at showdown. -/
theorem postBlind_stage (s : EngineState) (seat : Nat) (amt : Int) :
    (postBlind s seat amt).stage = s.stage := by
  dsimp only [postBlind, logEvent]
  exact (commitChips_fields s seat amt).1

theorem postBlind_pots (s : EngineState) (seat : Nat) (amt : Int) :
    (postBlind s seat amt).pots = s.pots := by
  dsimp only [postBlind, logEvent]
  exact (commitChips_fields s seat amt).2.1

theorem postBlind_lost (s : EngineState) (seat : Nat) (amt : Int) :
    (postBlind s seat amt).lost = s.lost := by
  dsimp only [postBlind, logEvent]
  exact (commitChips_fields s seat amt).2.2.1

theorem postBlind_cashout (s : EngineState) (seat : Nat) (amt : Int) :
    (postBlind s seat amt).cashout = s.cashout := by
  dsimp only [postBlind, logEvent]
  exact (commitChips_fields s seat amt).2.2.2.1

theorem postBlind_buyins (s : EngineState) (seat : Nat) (amt : Int) :
    (postBlind s seat amt).buyins = s.buyins := by
  dsimp only [postBlind, logEvent]
  exact (commitChips_fields s seat amt).2.2.2.2.1

theorem postBlind_stackSum (s : EngineState) (seat : Nat) (amt : Int) :
    stackSum (postBlind s seat amt).players + (postBlind s seat amt).pot =
      stackSum s.players + s.pot := by
  dsimp only [postBlind, logEvent]
  exact (commitChips_fields s seat amt).2.2.2.2.2

theorem stackSum_map_newHand (players : List Player) :
    stackSum (players.map (fun p =>
      ({ p with inHand := 0 < p.stack, isAllIn := false,
                hasActedThisRound := false, hole := none } : Player))) =
      stackSum players :=
  stackSum_map_preserve _ _ (fun _ => rfl)

def Inv (s : EngineState) : Prop :=
  stackSum s.players + s.pot + s.lost + s.cashout = s.buyins ∧
  (isBettingStage s.stage = true → s.pots = []) ∧
  (s.stage = Stage.showdown → s.pot = 0)

theorem addPlayer_inv (s : EngineState) (pid pname : String) (q : ℚ) (ow : Bool)
    (h : Inv s) : Inv (addPlayer s pid pname q ow).2 := by
  obtain ⟨h1, h2, h3⟩ := h
  unfold addPlayer
  split
  · exact ⟨h1, h2, h3⟩
  · split
    · exact ⟨h1, h2, h3⟩
    · refine ⟨?_, ?_, ?_⟩
      · simp only [logEvent]
        rw [stackSum_append]
        simp only [stackSum, List.map_cons, List.map_nil, List.sum_cons, List.sum_nil] at h1 ⊢
        omega
      · intro hb
        simpa [logEvent] using h2 (by simpa [logEvent] using hb)
      · intro hb
        simpa [logEvent] using h3 (by simpa [logEvent] using hb)

theorem removePlayer_inv (s : EngineState) (pid : String)
    (h : Inv s) : Inv (removePlayer s pid) := by
  obtain ⟨h1, h2, h3⟩ := h
  unfold removePlayer
  split
  · exact ⟨h1, h2, h3⟩
  · split
    · exact ⟨h1, h2, h3⟩
    · rename_i nidx hfound hopt p hp
      have hsum : stackSum (((s.players.eraseIdx nidx).enum).map
          (fun e => ({ e.2 with seat := e.1 } : Player))) =
          stackSum s.players - p.stack := by
        have hmap := stackSum_enumFrom_map
          (fun e => ({ e.2 with seat := e.1 } : Player)) (fun e => rfl)
          (s.players.eraseIdx nidx) 0
        rw [List.enum]
        rw [hmap, stackSum_eraseIdx s.players nidx p hp]
      simp only [logEvent]
      split
      · refine ⟨?_, by simp [isBettingStage], by simp⟩
        simp only [logEvent]
        rw [hsum]
        omega
      · refine ⟨?_, ?_, ?_⟩
        · simp only [logEvent]
          rw [hsum]
          omega
        · intro hb
          simpa [logEvent] using h2 (by simpa [logEvent] using hb)
        · intro hb
          simpa [logEvent] using h3 (by simpa [logEvent] using hb)

theorem setBlinds_inv (s : EngineState) (a b : ℚ) (h : Inv s) :
    Inv (setBlinds s a b) := by
  obtain ⟨h1, h2, h3⟩ := h
  exact ⟨h1, h2, h3⟩

theorem doShow_inv (s : EngineState) (pid : String) (h : Inv s) :
    Inv (doShow s pid).2 := by
  obtain ⟨h1, h2, h3⟩ := h
  unfold doShow
  split
  · exact ⟨h1, h2, h3⟩
  · split
    · refine ⟨?_, ?_, ?_⟩
      · split <;> simpa [logEvent] using h1
      · intro hb
        split at hb <;> simpa [logEvent] using h2 (by simpa [logEvent] using hb)
      · intro hb
        split at hb <;> simpa [logEvent] using h3 (by simpa [logEvent] using hb)
    · exact ⟨h1, h2, h3⟩

theorem resolveShowdown_inv (s : EngineState)
    (h1 : stackSum s.players + s.pot + s.lost + s.cashout = s.buyins) :
    Inv (resolveShowdown s) := by
  unfold resolveShowdown resetReveals
  dsimp only
  split
  · split
    · rename_i hlen hnone
      exfalso
      have hpos : 0 < (s.players.filter (fun p => p.inHand && p.hole.isSome)).length := by
        omega
      have hsome := findIdx_get?_isSome s.players (fun p => p.inHand && p.hole.isSome) hpos
      rw [hnone] at hsome
      exact Bool.noConfusion hsome
    · rename_i hlen w hw
      refine ⟨?_, ?_, ?_⟩
      · dsimp only [logEvent]
        rw [stackSum_listModify_add, hw]
        simp only [Option.isSome_some, if_true]
        omega
      · intro hb
        dsimp only [logEvent, isBettingStage] at hb
        exact Bool.noConfusion hb
      · intro _
        rfl
  · refine ⟨?_, ?_, ?_⟩
    · dsimp only [logEvent]
      rw [applyWinnings_sum']
      omega
    · intro hb
      dsimp only [logEvent, isBettingStage] at hb
      exact Bool.noConfusion hb
    · intro _
      rfl

theorem advanceStage_inv (s : EngineState) (h : Inv s)
    (hb : isBettingStage s.stage = true) : Inv (advanceStage s) := by
  obtain ⟨h1, h2, h3⟩ := h
  have hpots := h2 hb
  have hsum : stackSum (s.players.map
      (fun p => ({ p with hasActedThisRound := false } : Player))) =
      stackSum s.players :=
    stackSum_map_preserve _ _ (fun p => rfl)
  cases hst : s.stage
  · rw [hst] at hb; exact absurd hb (by simp [isBettingStage])
  · refine ⟨?_, ?_, ?_⟩
    · simp only [advanceStage, hst, logEvent]
      rw [hsum]
      omega
    · intro _
      simpa [advanceStage, hst, logEvent] using hpots
    · intro hc
      simp [advanceStage, hst, logEvent] at hc
  · refine ⟨?_, ?_, ?_⟩
    · simp only [advanceStage, hst, logEvent]
      rw [hsum]
      omega
    · intro _
      simpa [advanceStage, hst, logEvent] using hpots
    · intro hc
      simp [advanceStage, hst, logEvent] at hc
  · refine ⟨?_, ?_, ?_⟩
    · simp only [advanceStage, hst, logEvent]
      rw [hsum]
      omega
    · intro _
      simpa [advanceStage, hst, logEvent] using hpots
    · intro hc
      simp [advanceStage, hst, logEvent] at hc
  · simp only [advanceStage, hst]
    refine resolveShowdown_inv _ ?_
    dsimp only
    rw [hsum]
    omega
  · rw [hst] at hb; exact absurd hb (by simp [isBettingStage])

theorem closeRound_inv (s : EngineState) (h : Inv s) : Inv (closeRound s) := by
  unfold closeRound
  split
  · split
    · exact advanceStage_inv s h (by assumption)
    · exact h
  · exact h

theorem doMuck_inv (s : EngineState) (pid : String) (h : Inv s) :
    Inv (doMuck s pid).2 := by
  obtain ⟨h1, h2, h3⟩ := h
  unfold doMuck
  split
  · exact ⟨h1, h2, h3⟩
  · split
    · refine ⟨?_, ?_, ?_⟩
      · simpa [logEvent] using h1
      · intro hb
        simpa [logEvent] using h2 (by simpa [logEvent] using hb)
      · intro hb
        simpa [logEvent] using h3 (by simpa [logEvent] using hb)
    · exact ⟨h1, h2, h3⟩

theorem applyKind_inv (s : EngineState) (actor : Player) (ti : Nat)
    (kind : ActionKind) (amount : Option ℚ) (s1 : EngineState) (ended : Bool)
    (hs : Inv s) (hb : isBettingStage s.stage = true)
    (h : applyKind s actor ti kind amount = some (s1, ended)) : Inv s1 := by
  obtain ⟨h1, h2, h3⟩ := hs
  have hpots : s.pots = [] := h2 hb
  cases kind <;> simp only [applyKind] at h
  case fold =>
    split at h
    · split at h
      · simp only [Option.some.injEq, Prod.mk.injEq] at h
        rw [← h.1]
        refine ⟨?_, ?_, ?_⟩
        · dsimp only [logEvent]
          rw [stackSum_listModify_folded]
          exact h1
        · intro hb2
          dsimp only [logEvent] at hb2 ⊢
          exact hpots
        · intro hc
          dsimp only [logEvent] at hc
          rw [hc] at hb
          exact Bool.noConfusion hb
      · rename_i hw
        simp only [Option.some.injEq, Prod.mk.injEq] at h
        rw [← h.1]
        refine ⟨?_, ?_, ?_⟩
        · dsimp only [logEvent, resetReveals] at hw ⊢
          rw [stackSum_listModify_add, hw]
          rw [stackSum_listModify_folded]
          simp only [Option.isSome_some, if_true]
          omega
        · intro hb2
          dsimp only [logEvent, resetReveals, isBettingStage] at hb2
          exact Bool.noConfusion hb2
        · intro _
          rfl
    · simp only [Option.some.injEq, Prod.mk.injEq] at h
      rw [← h.1]
      refine ⟨?_, ?_, ?_⟩
      · dsimp only [logEvent]
        rw [stackSum_listModify_folded]
        exact h1
      · intro hb2
        dsimp only [logEvent] at hb2 ⊢
        exact hpots
      · intro hc
        dsimp only [logEvent] at hc
        rw [hc] at hb
        exact Bool.noConfusion hb
  case check =>
    split at h
    · exact Option.noConfusion h
    · simp only [Option.some.injEq, Prod.mk.injEq] at h
      rw [← h.1]
      refine ⟨?_, ?_, ?_⟩
      · dsimp only [logEvent]
        rw [stackSum_listModify_acted]
        exact h1
      · intro hb2
        dsimp only [logEvent] at hb2 ⊢
        exact hpots
      · intro hc
        dsimp only [logEvent] at hc
        rw [hc] at hb
        exact Bool.noConfusion hb
  case call =>
    split at h
    · exact Option.noConfusion h
    · split at h
      · exact Option.noConfusion h
      · simp only [Option.some.injEq, Prod.mk.injEq] at h
        rw [← h.1]
        obtain ⟨hcst, hcpots, hclost, hccash, hcbuy, hcsum⟩ :=
          commitChips_fields s actor.seat
            (max 0 (s.currentBet - s.streetBets.getD actor.seat 0))
        refine ⟨?_, ?_, ?_⟩
        · dsimp only [logEvent]
          rw [stackSum_listModify_acted]
          rw [hclost, hccash, hcbuy]
          omega
        · intro hb2
          dsimp only [logEvent] at hb2 ⊢
          rw [hcpots]
          exact hpots
        · intro hc
          dsimp only [logEvent] at hc
          rw [hcst] at hc
          rw [hc] at hb
          exact Bool.noConfusion hb
  case bet =>
    split at h
    · exact Option.noConfusion h
    · split at h
      · exact Option.noConfusion h
      · split at h
        · exact Option.noConfusion h
        · simp only [Option.some.injEq, Prod.mk.injEq] at h
          rw [← h.1]
          obtain ⟨hcst, hcpots, hclost, hccash, hcbuy, hcsum⟩ :=
            commitChips_fields s actor.seat
              (max 0 (max s.bigBlind ⌊(amount.getD 0)⌋ - s.streetBets.getD actor.seat 0))
          refine ⟨?_, ?_, ?_⟩
          · dsimp only [logEvent]
            rw [stackSum_listModify_acted]
            rw [stackSum_map_reset]
            rw [hclost, hccash, hcbuy]
            omega
          · intro hb2
            dsimp only [logEvent] at hb2 ⊢
            rw [hcpots]
            exact hpots
          · intro hc
            dsimp only [logEvent] at hc
            rw [hcst] at hc
            rw [hc] at hb
            exact Bool.noConfusion hb
  case raise =>
    split at h
    · exact Option.noConfusion h
    · split at h
      · exact Option.noConfusion h
      · simp only [Option.some.injEq, Prod.mk.injEq] at h
        rw [← h.1]
        obtain ⟨hcst, hcpots, hclost, hccash, hcbuy, hcsum⟩ :=
          commitChips_fields s actor.seat
            (max 0 (max (s.currentBet + s.bigBlind) ⌊(amount.getD 0)⌋ -
              s.streetBets.getD actor.seat 0))
        refine ⟨?_, ?_, ?_⟩
        · dsimp only [logEvent]
          rw [stackSum_listModify_acted]
          split
          · dsimp only
            rw [stackSum_map_reset]
            rw [hclost, hccash, hcbuy]
            omega
          · rw [hclost, hccash, hcbuy]
            omega
        · intro hb2
          dsimp only [logEvent] at hb2 ⊢
          split at hb2
          · dsimp only at hb2 ⊢
            split
            · rw [hcpots]; exact hpots
            · rw [hcpots]; exact hpots
          · split
            · rw [hcpots]; exact hpots
            · rw [hcpots]; exact hpots
        · intro hc
          dsimp only [logEvent] at hc
          split at hc
          · dsimp only at hc
            rw [hcst] at hc
            rw [hc] at hb
            exact Bool.noConfusion hb
          · rw [hcst] at hc
            rw [hc] at hb
            exact Bool.noConfusion hb

theorem playerAction_inv (s : EngineState) (id : String) (kind : ActionKind)
    (amount : Option ℚ) (s' : EngineState) (hs : Inv s)
    (h : playerAction s id kind amount = some s') : Inv s' := by
  unfold playerAction at h
  split at h
  · exact Option.noConfusion h
  · split at h
    · exact Option.noConfusion h
    · rename_i hnb _
      have hb : isBettingStage s.stage = true := by
        rcases hx : isBettingStage s.stage with _ | _
        · exact absurd (by rw [hx]; exact Bool.noConfusion) hnb
        · rfl
      split at h
      · exact Option.noConfusion h
      · rename_i actor hactor
        split at h
        · exact Option.noConfusion h
        · rcases happ : applyKind s actor s.turnSeat.toNat kind amount with _ | r
          · rw [happ] at h
            exact Option.noConfusion h
          · rw [happ] at h
            simp only [Option.map_some', Option.some.injEq] at h
            have hinv : Inv r.1 := applyKind_inv s actor s.turnSeat.toNat kind amount
              r.1 r.2 hs hb (by rw [happ])
            rcases hend : r.2 with _ | _
            · rw [hend] at h
              simp only [if_false, Bool.false_eq_true] at h
              rw [← h]
              exact closeRound_inv _ hinv
            · rw [hend] at h
              simp only [if_true] at h
              rw [← h]
              exact hinv

theorem startHand_inv (s0 : EngineState) (deck : List Card) (h : Inv s0) :
    Inv (startHand s0 deck) := by
  obtain ⟨h1, h2, h3⟩ := h
  unfold startHand
  split
  · exact ⟨h1, h2, h3⟩
  · dsimp only
    refine ⟨?_, ?_, ?_⟩
    · dsimp only [logEvent]
      simp only [postBlind_stackSum, postBlind_lost, postBlind_cashout, postBlind_buyins]
      rw [dealHoles_stackSum, stackSum_map_newHand]
      omega
    · intro _
      dsimp only [logEvent]
      simp only [postBlind_pots]
    · intro hc
      dsimp only [logEvent] at hc
      simp only [postBlind_stage] at hc
      exact Stage.noConfusion hc

theorem step_inv (s : EngineState) (op : Op) (h : Inv s) : Inv (step s op) := by
  cases op with
  | addPlayer id name st ow => exact addPlayer_inv s id name st ow h
  | removePlayer id => exact removePlayer_inv s id h
  | setBlinds a b => exact setBlinds_inv s a b h
  | startHand d => exact startHand_inv s d h
  | playerAction id k a =>
    dsimp only [step]
    rcases hpa : playerAction s id k a with _ | s'
    · exact h
    · exact playerAction_inv s id k a s' h hpa
  | doShow id => exact doShow_inv s id h
  | doMuck id => exact doMuck_inv s id h

theorem foldl_step_inv (l : List Op) :
    ∀ s : EngineState, Inv s → Inv (l.foldl step s) := by
  induction l with
  | nil => intro s hs; exact hs
  | cons o os ih => intro s hs; exact ih (step s o) (step_inv s o hs)

theorem run_inv (ops : List Op) : Inv (run ops) :=
  foldl_step_inv ops (initState "") ⟨rfl, fun _ => rfl, fun _ => rfl⟩

/-- C1 counterexample scenario: two players buy in for 10 each, the hand is
checked down to a full showdown (A calls the big blind, everyone checks
every street).  After `resolveShowdown` the pot is 0 and the stacks sum to
the 20 chips bought in, but the side-pot list is rebuilt and retained for
display, so `Σ(stack) + pot + Σ(sidePot.amount)` is 24, not 20. -/
def c1Ops : List Op :=
  [.addPlayer "a" "A" 10 true, .addPlayer "b" "B" 10 false,
   .startHand fullDeck,
   .playerAction "a" .call none, .playerAction "b" .check none,
   .playerAction "a" .check none, .playerAction "b" .check none,
   .playerAction "a" .check none, .playerAction "b" .check none,
   .playerAction "a" .check none, .playerAction "b" .check none]

set_option maxHeartbeats 2000000 in
theorem chip_conservation_cex :
    (run c1Ops).stage = Stage.showdown ∧
    (run c1Ops).buyins = 20 ∧
    (run c1Ops).pot = 0 ∧
    sumStacks (run c1Ops) = 20 ∧
    sumStacks (run c1Ops) + (run c1Ops).pot + sumPots (run c1Ops) = 24 := by
  decide

/-- C1 (amended): for every sequence of engine operations from a fresh
table, `Σ(stack) + pot + lost + cashout = total buy-ins`, where `cashout`
is the chips carried off by `removePlayer` and `lost` is the chips
destroyed by the two discard paths (a mid-hand `startHand` throws the live
pot away; a showdown pot layer with no eligible ranked seat is skipped).
During betting stages the stored side-pot list is empty, and after a full
showdown payout the pot is 0 — but the side-pot list is then rebuilt for
display rather than zeroed, so the spec's three-term sum
`Σ(stack) + pot + Σ(sidePot.amount)` over-counts the buy-ins at showdown
by the displayed side-pot total. -/
theorem chip_conservation_amended (ops : List Op) :
    stackSum (run ops).players + (run ops).pot + (run ops).lost +
      (run ops).cashout = (run ops).buyins ∧
    (isBettingStage (run ops).stage = true → (run ops).pots = []) ∧
    ((run ops).stage = Stage.showdown → (run ops).pot = 0) :=
  run_inv ops

/-- C1 witness: the amended conservation law evaluated on the concrete
checked-down showdown scenario. -/
theorem chip_conservation_amended_witness :
    stackSum (run c1Ops).players + (run c1Ops).pot + (run c1Ops).lost +
      (run c1Ops).cashout = (run c1Ops).buyins :=
  (chip_conservation_amended c1Ops).1

end PokerSpec
